import Mathlib

/-!
Verification of the ygrader grading engine against its specification.

The definitions below are a shallow embedding of the Python sources:
`ygrader/deductions.py` (the `StudentDeductions` store),
`ygrader/score_input.py` (the interactive score prompt `get_score`),
`ygrader/grading_item.py` (`GradeItem.run_grading`),
`ygrader/grader.py` (`_run_grading_sequential` and
`_get_student_code_learning_suite`), and `ygrader/feedback.py`
(`_get_student_key_and_submit_info`).

Python dicts are modelled as insertion-ordered association lists;
Python floats are modelled as rationals; `DeductionType` objects, which
the source compares by object identity (default `__eq__`), are modelled
through an explicit heap of object ids.
-/

namespace YGrader

/-- Lookup in a Python-dict-like association list (first entry wins;
keys are unique by construction of all operations below). -/
def alookup {α β : Type} [DecidableEq α] : List (α × β) → α → Option β
  | [], _ => none
  | (k, v) :: rest, a => if k = a then some v else alookup rest a

/-- Python-dict assignment `m[a] = b`: update in place if the key is
present (keeping its insertion position), otherwise append at the end. -/
def ainsert {α β : Type} [DecidableEq α] : List (α × β) → α → β → List (α × β)
  | [], a, b => [(a, b)]
  | (k, v) :: rest, a, b =>
      if k = a then (a, b) :: rest else (k, v) :: ainsert rest a b

/-- Python-dict deletion `del m[a]` (a no-op when the key is absent,
matching the guarded `if key in m: del m[key]` call sites). -/
def aerase {α β : Type} [DecidableEq α] : List (α × β) → α → List (α × β)
  | [], _ => []
  | (k, v) :: rest, a =>
      if k = a then aerase rest a else (k, v) :: aerase rest a

/-- A group key: the tuple of net ids used to key
`deductions_by_students` and `submit_time_by_students`. -/
abbrev GroupKey := List String

/-- Field content of a `DeductionType` object
(`deductions.py`, class `DeductionType`). -/
structure DeductionType where
  message : String
  points : ℚ
deriving DecidableEq

/-- In-memory state of a `StudentDeductions` store (`deductions.py`).
Python keeps `DeductionType` *objects* and compares them by object
identity (the class defines no `__eq__`), so the object graph is made
explicit: `heap` maps object ids to field contents, `deduction_types`
maps integer type ids to object ids, and the per-student lists hold
object ids.  `nextObj` allocates fresh object ids.  The YAML write-through
(`_save`) is I/O and is not part of the state transition being modelled. -/
structure StudentDeductions where
  heap : List (Nat × DeductionType)
  nextObj : Nat
  deduction_types : List (Int × Nat)
  deductions_by_students : List (GroupKey × List Nat)
  submit_time_by_students : List (GroupKey × String)
deriving DecidableEq

/-- Dereference an object id in the heap (every id stored by the
operations below is allocated in the heap; the default is never hit on
reachable states). -/
def heapGet (st : StudentDeductions) (oid : Nat) : DeductionType :=
  (alookup st.heap oid).getD ⟨"", 0⟩

/-- `StudentDeductions.get_student_deductions`: the list of deduction
objects applied to a student (object ids in our model), defaulting to
the empty list. -/
def get_student_deductions (st : StudentDeductions) (key : GroupKey) : List Nat :=
  (alookup st.deductions_by_students key).getD []

/-- `StudentDeductions.total_deductions`: sum of the `points` of the
deduction objects applied to the student; `None` yields `0.0`. -/
def total_deductions (st : StudentDeductions) : Option GroupKey → ℚ
  | none => 0
  | some key =>
      ((alookup st.deductions_by_students key).getD []).foldl
        (fun acc oid => acc + (heapGet st oid).points) 0

/-- `StudentDeductions.is_student_graded`: a student is graded iff their
key is present in `deductions_by_students`. -/
def is_student_graded (st : StudentDeductions) (key : GroupKey) : Bool :=
  (alookup st.deductions_by_students key).isSome

/-- `StudentDeductions.ensure_student_in_file`: insert an empty
deduction list for the key if it is absent. -/
def ensure_student_in_file (st : StudentDeductions) (key : GroupKey) :
    StudentDeductions :=
  if (alookup st.deductions_by_students key).isSome then st
  else { st with deductions_by_students := ainsert st.deductions_by_students key [] }

/-- `StudentDeductions.set_submit_time`: store the timestamp when it is
truthy (not `None`, not the empty string), otherwise delete any stored
timestamp. -/
def set_submit_time (st : StudentDeductions) (key : GroupKey) :
    Option String → StudentDeductions
  | some s =>
      if s = "" then
        { st with submit_time_by_students := aerase st.submit_time_by_students key }
      else
        { st with submit_time_by_students := ainsert st.submit_time_by_students key s }
  | none =>
      { st with submit_time_by_students := aerase st.submit_time_by_students key }

/-- `StudentDeductions.get_submit_time`. -/
def get_submit_time (st : StudentDeductions) (key : GroupKey) : Option String :=
  alookup st.submit_time_by_students key

/-- `StudentDeductions.apply_deduction_to_student`: returns `False` when
the type id is unknown; otherwise ensures the student has an entry and
appends the type's object unless the list already contains it (the
Python `in` test falls back to object identity). -/
def apply_deduction_to_student (st : StudentDeductions) (key : GroupKey)
    (deduction_id : Int) : Bool × StudentDeductions :=
  match alookup st.deduction_types deduction_id with
  | none => (false, st)
  | some oid =>
      let m :=
        if (alookup st.deductions_by_students key).isSome then
          st.deductions_by_students
        else ainsert st.deductions_by_students key []
      let cur := (alookup m key).getD []
      if oid ∈ cur then (true, { st with deductions_by_students := m })
      else (true, { st with deductions_by_students := ainsert m key (cur ++ [oid]) })

/-- `StudentDeductions.clear_student_deductions`: delete the key from
both per-student maps. -/
def clear_student_deductions (st : StudentDeductions) (key : GroupKey) :
    StudentDeductions :=
  { st with
      deductions_by_students := aerase st.deductions_by_students key
      submit_time_by_students := aerase st.submit_time_by_students key }

/-- Largest key of the `deduction_types` dict plus one, or `1` for an
empty dict (`add_deduction_type`: ids start at 1, 0 is reserved for the
clear command). -/
def nextDeductionId (st : StudentDeductions) : Int :=
  match st.deduction_types with
  | [] => 1
  | (k, _) :: rest => (rest.foldl (fun m p => max m p.1) k) + 1

/-- `StudentDeductions.add_deduction_type`: raises `ValueError` on
negative points, otherwise allocates a fresh `DeductionType` object
under the next available id. -/
def add_deduction_type (st : StudentDeductions) (message : String)
    (points : ℚ) : Except String (Int × StudentDeductions) :=
  if points < 0 then
    .error "Deduction points must be non-negative"
  else
    let nid := nextDeductionId st
    let oid := st.nextObj
    .ok (nid,
      { st with
          heap := st.heap ++ [(oid, ⟨message, points⟩)]
          nextObj := oid + 1
          deduction_types := ainsert st.deduction_types nid oid })

/-- `StudentDeductions.find_or_create_deduction_type`: first type whose
`message` matches, else create. -/
def find_or_create_deduction_type (st : StudentDeductions) (message : String)
    (points : ℚ) : Except String (Int × StudentDeductions) :=
  match st.deduction_types.find? (fun p => (heapGet st p.2).message == message) with
  | some p => .ok (p.1, st)
  | none => add_deduction_type st message points

/-- `StudentDeductions.is_deduction_in_use`: the type exists and its
object is present (identity) in some student's list. -/
def is_deduction_in_use (st : StudentDeductions) (deduction_id : Int) : Bool :=
  match alookup st.deduction_types deduction_id with
  | none => false
  | some oid => st.deductions_by_students.any (fun p => oid ∈ p.2)

/-- `StudentDeductions.delete_deduction_type`: refuse when the id is
unknown or the type is in use; otherwise remove it from the table. -/
def delete_deduction_type (st : StudentDeductions) (deduction_id : Int) :
    Bool × StudentDeductions :=
  if (alookup st.deduction_types deduction_id).isNone then (false, st)
  else if is_deduction_in_use st deduction_id then (false, st)
  else (true, { st with deduction_types := aerase st.deduction_types deduction_id })

/-- `StudentDeductions.change_deduction_value`: overwrite the `points`
field of the type's object in place (no validation of the new value). -/
def change_deduction_value (st : StudentDeductions) (deduction_id : Int)
    (new_points : ℚ) : Bool × StudentDeductions :=
  match alookup st.deduction_types deduction_id with
  | none => (false, st)
  | some oid =>
      (true, { st with
        heap := ainsert st.heap oid { heapGet st oid with points := new_points } })

/-- The validation loop of `change_deduction_value_interactive` and
`create_deduction_type_interactive`: a points value typed by the
operator is accepted iff it is non-negative and does not exceed
`max_points` when a cap is configured. -/
def deduction_points_valid (max_points : Option ℚ) (v : ℚ) : Bool :=
  if v < 0 then false
  else
    match max_points with
    | some m => if v > m then false else true
    | none => true

/-- The menu commands of `score_input.py` (`class MenuCommand(Enum)`). -/
inductive MenuCommand where
  | SKIP
  | BUILD
  | RERUN
  | NEW_DEDUCTION
  | DELETE_DEDUCTION
  | CLEAR_DEDUCTIONS
  | CHANGE_VALUE
  | MANAGE_GRADES
  | UNDO
  | EXIT
deriving DecidableEq

/-- The character value of each menu command. -/
def MenuCommand.value : MenuCommand → String
  | .SKIP => "s"
  | .BUILD => "b"
  | .RERUN => "r"
  | .NEW_DEDUCTION => "n"
  | .DELETE_DEDUCTION => "d"
  | .CLEAR_DEDUCTIONS => "0"
  | .CHANGE_VALUE => "v"
  | .MANAGE_GRADES => "g"
  | .UNDO => "u"
  | .EXIT => "e"

/-- The `allowed_cmds` dict built in `get_score` from `left_items` and
`right_items`: `BUILD`/`RERUN` appear only when allowed, `UNDO` only
when there is a last-graded student; the right column always contributes
`NEW_DEDUCTION`, `DELETE_DEDUCTION`, `CLEAR_DEDUCTIONS` and
`CHANGE_VALUE`. -/
def allowed_cmds (allow_rebuild allow_rerun has_last_graded : Bool) :
    List MenuCommand :=
  [MenuCommand.SKIP]
    ++ (if allow_rebuild then [MenuCommand.BUILD] else [])
    ++ (if allow_rerun then [MenuCommand.RERUN] else [])
    ++ [MenuCommand.MANAGE_GRADES]
    ++ (if has_last_graded then [MenuCommand.UNDO] else [])
    ++ [MenuCommand.EXIT]
    ++ [MenuCommand.NEW_DEDUCTION, MenuCommand.DELETE_DEDUCTION,
        MenuCommand.CLEAR_DEDUCTIONS, MenuCommand.CHANGE_VALUE]

/-- Drop leading whitespace characters (helper for `str.strip()`). -/
def pyStripLeft : List Char → List Char
  | [] => []
  | c :: cs => if c.isWhitespace then pyStripLeft cs else c :: cs

/-- Python `str.strip()`: drop leading and trailing whitespace. -/
def pyStrip (s : String) : String :=
  String.mk ((pyStripLeft (pyStripLeft s.data).reverse).reverse)

/-- Helper for `str.split(sep)` with a one-character separator. -/
def pySplitAux (sep : Char) : List Char → List Char → List String
  | [], acc => [String.mk acc.reverse]
  | c :: cs, acc =>
      if c = sep then String.mk acc.reverse :: pySplitAux sep cs []
      else pySplitAux sep cs (c :: acc)

/-- Python `str.split(sep)` for a one-character separator: split at
every occurrence, keeping empty segments (`"".split(",") == [""]`). -/
def pySplit (s : String) (sep : Char) : List String :=
  pySplitAux sep s.data []

/-- Digit run of a Python integer literal: one or more decimal digits
with single underscores allowed between digits. -/
def pyDigits : List Char → Option Nat → Option Nat
  | [], acc => acc
  | '_' :: c :: cs, some acc =>
      if c.isDigit then pyDigits cs (some (acc * 10 + (c.toNat - 48))) else none
  | '_' :: [], _ => none
  | c :: cs, acc =>
      if c.isDigit then
        pyDigits cs (some ((acc.getD 0) * 10 + (c.toNat - 48)))
      else none

/-- `int(s)` on an input with no interior whitespace issues: strip
whitespace, optional sign, then decimal digits; anything else raises
`ValueError` (modelled as `none`). -/
def parsePyInt (s : String) : Option Int :=
  match (pyStrip s).data with
  | '+' :: rest => (pyDigits rest none).map (fun n => (n : Int))
  | '-' :: rest => (pyDigits rest none).map (fun n => -(n : Int))
  | t => (pyDigits t none).map (fun n => (n : Int))

/-- One part of the comma-separated deduction list is valid iff it
parses as an integer, is strictly positive, and names an existing
deduction type (`get_score`, the `all_valid` loop). -/
def part_valid (st : StudentDeductions) (p : String) : Bool :=
  match parsePyInt p with
  | none => false
  | some did =>
      if did ≤ 0 then false
      else (alookup st.deduction_types did).isSome

/-- The `valid_ids` accumulation loop of `get_score`: collect the parsed
ids, failing as a whole on the first invalid part. -/
def collectValidIds (st : StudentDeductions) : List String → Option (List Int)
  | [] => some []
  | p :: rest =>
      match parsePyInt p with
      | none => none
      | some did =>
          if did ≤ 0 then none
          else if (alookup st.deduction_types did).isSome then
            (collectValidIds st rest).map (fun l => did :: l)
          else none

/-- Apply a batch of (already validated) deduction ids in order
(`get_score`, the `for deduction_id in valid_ids` loop). -/
def applyDeductionIds (st : StudentDeductions) (key : GroupKey)
    (ids : List Int) : StudentDeductions :=
  ids.foldl (fun s did => (apply_deduction_to_student s key did).2) st

/-- `computed_score` in `get_score`: `max(0, max_points - deductions_total)`,
recomputed from the store on every render. -/
def computed_score (st : StudentDeductions) (key : GroupKey) (max_points : ℚ) : ℚ :=
  max 0 (max_points - total_deductions st (some key))

/-- Outcome of processing one operator input line inside `get_score`'s
`while True` loop. -/
inductive ScoreStepResult where
  /-- Empty input: the computed score is accepted and returned. -/
  | score (value : ℚ)
  /-- A command that returns directly to the caller (`return cmd`). -/
  | command (c : MenuCommand)
  /-- A command that enters a nested interactive flow
  (new/delete/change-value/manage-grades) and then re-prompts; the
  nested flow consumes further operator input not modelled here. -/
  | interact (c : MenuCommand) (st : StudentDeductions)
  /-- Loop back to the prompt with the (possibly updated) store. -/
  | loop (st : StudentDeductions)
deriving DecidableEq

/-- One iteration of the `get_score` input loop (`score_input.py`,
body of `while True`): empty input accepts the computed score; a key in
`allowed_cmds` either opens a nested flow or returns the command; the
(unreachable, because `"0"` is in `allowed_cmds`) dedicated clear branch
clears the student's deductions; otherwise the input is parsed as a
comma-separated deduction list and applied atomically, invalid input
looping with the store untouched. -/
def get_score_step (st : StudentDeductions) (key : GroupKey) (max_points : ℚ)
    (allow_rebuild allow_rerun has_last_graded : Bool) (txt : String) :
    ScoreStepResult :=
  if txt = "" then
    .score (computed_score st key max_points)
  else
    match (allowed_cmds allow_rebuild allow_rerun has_last_graded).find?
        (fun c => c.value == txt) with
    | some c =>
        if c = .NEW_DEDUCTION ∨ c = .DELETE_DEDUCTION ∨ c = .CHANGE_VALUE
            ∨ c = .MANAGE_GRADES then
          .interact c st
        else
          .command c
    | none =>
        if txt = MenuCommand.CLEAR_DEDUCTIONS.value then
          .loop (clear_student_deductions st key)
        else
          match collectValidIds st ((pySplit txt ',').map pyStrip) with
          | some (d :: ds) => .loop (applyDeductionIds st key (d :: ds))
          | _ => .loop st

/-- The persistence step at the end of `GradeItem.run_grading` after a
score is accepted (also used by the auto-score path): save the pending
submit time and ensure the student has an entry in the deductions file,
even with no deductions, to mark them graded. -/
def record_score (st : StudentDeductions) (key : GroupKey)
    (pending_submit_time : Option String) : StudentDeductions :=
  ensure_student_in_file (set_submit_time st key pending_submit_time) key

/-- The store mutations a grading pass performs for the group currently
being graded: applying a deduction id (typed id or auto-applied), the
`"0"` clear, the graded-marker insertion, and the submit-time save. -/
inductive GradeOp where
  | applyDeduction (deduction_id : Int)
  | clear
  | ensure
  | setSubmit (t : Option String)

/-- Run one grading-pass mutation against the store for a group key. -/
def runGradeOp (st : StudentDeductions) (key : GroupKey) :
    GradeOp → StudentDeductions
  | .applyDeduction did => (apply_deduction_to_student st key did).2
  | .clear => clear_student_deductions st key
  | .ensure => ensure_student_in_file st key
  | .setSubmit t => set_submit_time st key t

/-- Run a sequence of grading-pass mutations for one group key. -/
def runGradeOps (st : StudentDeductions) (key : GroupKey)
    (ops : List GradeOp) : StudentDeductions :=
  ops.foldl (fun s op => runGradeOp s key op) st

/-- The per-session state of `Grader._run_grading_sequential` that the
undo feature touches: one `StudentDeductions` store per grade item, the
current row index, the previous row index (`prev_idx`) and the
last-graded group (`last_graded_net_ids`). -/
structure SessionState where
  stores : List StudentDeductions
  idx : Nat
  prevIdx : Option Nat
  lastGraded : Option GroupKey

/-- Normal completion of one group across all items
(`_run_grading_sequential` lines after the item loop): each item's
store is updated by that item's mutations for the group, the group is
remembered as last graded, and `prev_idx`/`idx` advance. -/
def finishStudent (s : SessionState) (key : GroupKey)
    (opss : List (List GradeOp)) : SessionState :=
  { stores := List.zipWith (fun st ops => runGradeOps st key ops) s.stores opss
    idx := s.idx + 1
    prevIdx := some s.idx
    lastGraded := some key }

/-- Store mutations made for the current group before the operator
presses undo (the session position does not move). -/
def partialGrade (s : SessionState) (key : GroupKey)
    (opss : List (List GradeOp)) : SessionState :=
  { s with
      stores := List.zipWith (fun st ops => runGradeOps st key ops) s.stores opss }

/-- The `MenuCommand.UNDO` branch of `GradeItem.run_grading` combined
with the `go_back` handling of `_run_grading_sequential`: when a last
graded group exists, clear its records in every item, clear the current
group's partial records in every item, and (when `prev_idx` is set) jump
back to the previous row, forgetting `prev_idx` and the last-graded
group. -/
def undoAtCurrent (s : SessionState) (currentKey : GroupKey) : SessionState :=
  match s.lastGraded with
  | none => s
  | some lastKey =>
      let stores' := s.stores.map (fun st =>
        clear_student_deductions (clear_student_deductions st lastKey) currentKey)
      match s.prevIdx with
      | some p => { stores := stores', idx := p, prevIdx := none, lastGraded := none }
      | none =>
          { stores := stores', idx := s.idx + 1, prevIdx := some s.idx
            lastGraded := some lastKey }

/-- Python tuple/list `<` (lexicographic, shorter prefix is smaller),
used on the `date_time` tuples of zip entries. -/
def pyTupleLt : List Nat → List Nat → Bool
  | [], [] => false
  | [], _ :: _ => true
  | _ :: _, [] => false
  | a :: as, b :: bs =>
      if a < b then true else if b < a then false else pyTupleLt as bs

/-- Python tuple/list `<=` (lexicographic), the comparison
`file.date_time <= extracted_by_name[...].date_time` in
`Grader._get_student_code_learning_suite`. -/
def pyTupleLe : List Nat → List Nat → Bool
  | [], _ => true
  | _ :: _, [] => false
  | a :: as, b :: bs =>
      if a < b then true else if b < a then false else pyTupleLe as bs

/-- A matching archive entry in `_get_student_code_learning_suite`,
after the net-id prefix has been stripped: destination filename,
embedded modification time, and file content. -/
structure ZipEntry where
  dest : String
  date_time : List Nat
  content : String
deriving DecidableEq

/-- State of the extraction scan: `extracted_by_name` (last extracted
entry per destination name), `count_by_filename` (versions seen per
name), and the resulting on-disk content per destination. -/
structure ExtractState where
  extracted_by_name : List (String × ZipEntry)
  count_by_filename : List (String × Nat)
  files : List (String × String)
deriving DecidableEq

/-- Processing of one matching entry in the extraction loop of
`_get_student_code_learning_suite`: bump the per-name version count,
then skip the entry when one with the same destination name and a
modification time at least as late was already extracted, otherwise
extract (overwriting the destination file) and record the entry. -/
def extractStep (s : ExtractState) (e : ZipEntry) : ExtractState :=
  let counts := ainsert s.count_by_filename e.dest
      ((alookup s.count_by_filename e.dest).getD 0 + 1)
  match alookup s.extracted_by_name e.dest with
  | some prev =>
      if pyTupleLe e.date_time prev.date_time then
        { s with count_by_filename := counts }
      else
        { extracted_by_name := ainsert s.extracted_by_name e.dest e
          count_by_filename := counts
          files := ainsert s.files e.dest e.content }
  | none =>
      { extracted_by_name := ainsert s.extracted_by_name e.dest e
        count_by_filename := counts
        files := ainsert s.files e.dest e.content }

/-- Run the extraction scan over the matching entries in archive order. -/
def extractAll (entries : List ZipEntry) : ExtractState :=
  entries.foldl extractStep ⟨[], [], []⟩

/-- The duplicate-version report after extraction: a destination name is
flagged (as a yellow warning, `N versions submitted, using last
modified.`) iff more than one version was seen. -/
def extraction_warned (s : ExtractState) (dest : String) : Bool :=
  decide ((alookup s.count_by_filename dest).getD 0 > 1)

/-- The return value of `_get_student_code_learning_suite`: success iff
at least one file was extracted; duplicate counts never fail the call. -/
def extraction_success (s : ExtractState) : Bool :=
  !s.extracted_by_name.isEmpty

/-- The running last-extracted entry for one destination name: the
reduction `extracted_by_name` applies to the entries sharing that name
(keep the current entry unless the new one is strictly later). -/
def championAux (acc : ZipEntry) : List ZipEntry → ZipEntry
  | [] => acc
  | e :: es => if pyTupleLe e.date_time acc.date_time then championAux acc es
               else championAux e es

/-- The entry whose content survives for one destination name. -/
def champion : List ZipEntry → Option ZipEntry
  | [] => none
  | e :: es => some (championAux e es)

/-- `champion` continued from an optional already-extracted entry. -/
def championFrom : Option ZipEntry → List ZipEntry → Option ZipEntry
  | none, ms => champion ms
  | some c, ms => some (championAux c ms)

/-- The student-key search in `_get_student_key_and_submit_info`
(`feedback.py`): prefer the singleton key `(net_id,)` in either map,
otherwise scan the union of both key sets for a key containing the
net id.  Python iterates that union as a `set` (unspecified order); the
model fixes the order: deduction keys first, then submit-time keys. -/
def find_student_key (ded : StudentDeductions) (netId : String) :
    Option GroupKey :=
  if (alookup ded.deductions_by_students [netId]).isSome then some [netId]
  else if (alookup ded.submit_time_by_students [netId]).isSome then some [netId]
  else
    (ded.deductions_by_students.map Prod.fst
      ++ ded.submit_time_by_students.map Prod.fst).find?
      (fun k => netId ∈ k)

/-- The effective due date for a group: the assignment due date raised
by each member's exception, if any (`feedback.py`, the
`for member_net_id in student_key` loop). -/
def effective_due (due : Nat) (exceptions : List (String × Nat))
    (key : GroupKey) : Nat :=
  key.foldl (fun acc m =>
    match alookup exceptions m with
    | some e => max acc e
    | none => acc) due

/-- Accumulator of the item scan in `_get_student_key_and_submit_info`:
`found_student_key`, `effective_due_date` and `latest_submit_time`. -/
structure SubmitScan where
  foundKey : Option GroupKey
  effectiveDue : Option Nat
  latest : Option Nat
deriving DecidableEq

/-- The per-item body of the scan loop: when the student's key is found
in this item, remember it, recompute the effective due date from it
(when a due date is configured), and fold this item's parsed submit
time into the running latest submit time.  `parse` stands for
`datetime.fromisoformat`; a `ValueError` is `none` and is skipped. -/
def submit_scan_step (parse : String → Option Nat) (netId : String)
    (due : Option Nat) (exceptions : List (String × Nat))
    (acc : SubmitScan) (ded : StudentDeductions) : SubmitScan :=
  match find_student_key ded netId with
  | none => acc
  | some key =>
      let eff :=
        match due with
        | some d => some (effective_due d exceptions key)
        | none => acc.effectiveDue
      let latest :=
        match alookup ded.submit_time_by_students key with
        | none => acc.latest
        | some s =>
            if s = "" then acc.latest
            else
              match parse s with
              | none => acc.latest
              | some t =>
                  match acc.latest with
                  | none => some t
                  | some l => if t > l then some t else acc.latest
      { foundKey := some key, effectiveDue := eff, latest := latest }

/-- The full item scan, starting from no key, the configured due date
and no submit time. -/
def submit_scan (parse : String → Option Nat) (items : List StudentDeductions)
    (netId : String) (due : Option Nat) (exceptions : List (String × Nat)) :
    SubmitScan :=
  items.foldl (submit_scan_step parse netId due exceptions)
    ⟨none, due, none⟩

/-- `_get_student_key_and_submit_info`: run the scan, then report the
submit time as `None` when it is on time (present and no later than the
effective due date). -/
def get_student_key_and_submit_info (parse : String → Option Nat)
    (items : List StudentDeductions) (netId : String) (due : Option Nat)
    (exceptions : List (String × Nat)) :
    Option GroupKey × Option Nat × Option Nat :=
  let scan := submit_scan parse items netId due exceptions
  let reported :=
    match scan.latest, scan.effectiveDue with
    | some l, some e => if l ≤ e then none else some l
    | _, _ => scan.latest
  (scan.foundKey, scan.effectiveDue, reported)

/-! ### Concrete example stores (used by witnesses and counterexamples) -/

/-- A store with one 3-point deduction type applied to one group. -/
def exStore1 : StudentDeductions :=
  ⟨[(0, ⟨"Missing header", 3⟩)], 1, [(1, 0)], [(["abc123"], [0])], []⟩

/-- A store with one 2-point deduction type and no graded groups. -/
def exStore2 : StudentDeductions :=
  ⟨[(0, ⟨"Late submission", 2⟩)], 1, [(1, 0)], [], []⟩

/-- The empty store. -/
def exStore0 : StudentDeductions := ⟨[], 0, [], [], []⟩

/-- A store with two distinct deduction-type objects carrying equal
message and points (as produced by two `add_deduction_type` calls with
the same arguments). -/
def exStore3 : StudentDeductions :=
  ⟨[(0, ⟨"dup", 1⟩), (1, ⟨"dup", 1⟩)], 2, [(1, 0), (2, 1)], [], []⟩

/-- A store where deduction type 1 is applied to a group and type 2 is
unused. -/
def exStore4 : StudentDeductions :=
  ⟨[(0, ⟨"used", 2⟩), (1, ⟨"unused", 1⟩)], 2, [(1, 0), (2, 1)],
    [(["abc123"], [0])], []⟩

/-- Two archive entries for the same destination filename, the second
with a later embedded modification time. -/
def exEntry1 : ZipEntry := ⟨"main.c", [2026, 1, 1, 10, 0, 0], "v1"⟩

/-- See `exEntry1`. -/
def exEntry2 : ZipEntry := ⟨"main.c", [2026, 1, 2, 9, 30, 0], "v2"⟩

/-- A store in which group `abc123` is graded with no deductions and a
recorded submit time string `t8`. -/
def exStoreSubmit : StudentDeductions :=
  ⟨[], 0, [], [(["abc123"], [])], [(["abc123"], "t8")]⟩

/-- A concrete stand-in for `datetime.fromisoformat` mapping the
timestamp string `t8` to time `8`. -/
def exParse : String → Option Nat := fun s => if s = "t8" then some 8 else none

/-! ### Helper lemmas -/

theorem alookup_ainsert_self {α β : Type} [DecidableEq α]
    (l : List (α × β)) (a : α) (b : β) : alookup (ainsert l a b) a = some b := by
  induction l with
  | nil => simp [ainsert, alookup]
  | cons hd tl ih =>
      obtain ⟨k, v⟩ := hd
      by_cases h : k = a <;> simp [ainsert, alookup, h, ih]

theorem alookup_ainsert_ne {α β : Type} [DecidableEq α]
    (l : List (α × β)) (a a' : α) (b : β) (h : a ≠ a') :
    alookup (ainsert l a b) a' = alookup l a' := by
  induction l with
  | nil => simp [ainsert, alookup, h]
  | cons hd tl ih =>
      obtain ⟨k, v⟩ := hd
      by_cases hk : k = a
      · subst hk
        simp [ainsert, alookup, h]
      · simp [ainsert, alookup, hk, ih]

theorem alookup_aerase_self {α β : Type} [DecidableEq α]
    (l : List (α × β)) (a : α) : alookup (aerase l a) a = none := by
  induction l with
  | nil => simp [aerase, alookup]
  | cons hd tl ih =>
      obtain ⟨k, v⟩ := hd
      by_cases h : k = a <;> simp [aerase, alookup, h, ih]

theorem alookup_aerase_ne {α β : Type} [DecidableEq α]
    (l : List (α × β)) (a a' : α) (h : a ≠ a') :
    alookup (aerase l a) a' = alookup l a' := by
  induction l with
  | nil => simp [aerase, alookup]
  | cons hd tl ih =>
      obtain ⟨k, v⟩ := hd
      by_cases hk : k = a
      · have hk2 : k ≠ a' := by rw [hk]; exact h
        simp [aerase, alookup, hk, hk2, h, ih]
      · by_cases hk' : k = a'
        · simp [aerase, alookup, hk, hk', Ne.symm h]
        · simp [aerase, alookup, hk, hk', ih]

theorem aerase_of_alookup_none {α β : Type} [DecidableEq α]
    (l : List (α × β)) (a : α) (h : alookup l a = none) : aerase l a = l := by
  induction l with
  | nil => simp [aerase]
  | cons hd tl ih =>
      obtain ⟨k, v⟩ := hd
      by_cases hk : k = a
      · simp [alookup, hk] at h
      · simp [alookup, hk] at h
        simp [aerase, hk, ih h]

theorem aerase_ainsert_same {α β : Type} [DecidableEq α]
    (l : List (α × β)) (a : α) (b : β) : aerase (ainsert l a b) a = aerase l a := by
  induction l with
  | nil => simp [ainsert, aerase]
  | cons hd tl ih =>
      obtain ⟨k, v⟩ := hd
      by_cases hk : k = a
      · subst hk
        simp [ainsert, aerase]
      · simp [ainsert, aerase, hk, ih]

theorem aerase_aerase_comm {α β : Type} [DecidableEq α]
    (l : List (α × β)) (a a' : α) :
    aerase (aerase l a) a' = aerase (aerase l a') a := by
  induction l with
  | nil => simp [aerase]
  | cons hd tl ih =>
      obtain ⟨k, v⟩ := hd
      by_cases hk : k = a
      · subst hk
        by_cases hk' : k = a'
        · subst hk'
          simp [aerase, ih]
        · simp [aerase, hk', ih]
      · by_cases hk' : k = a'
        · subst hk'
          simp [aerase, hk, ih]
        · simp [aerase, hk, hk', ih]

theorem aerase_idem {α β : Type} [DecidableEq α]
    (l : List (α × β)) (a : α) : aerase (aerase l a) a = aerase l a := by
  induction l with
  | nil => simp [aerase]
  | cons hd tl ih =>
      obtain ⟨k, v⟩ := hd
      by_cases hk : k = a <;> simp [aerase, hk, ih]

theorem alookup_append_fresh {α β : Type} [DecidableEq α]
    (l : List (α × β)) (a : α) (b : β) (h : alookup l a = none) :
    alookup (l ++ [(a, b)]) a = some b := by
  induction l with
  | nil => simp [alookup]
  | cons hd tl ih =>
      obtain ⟨k, v⟩ := hd
      by_cases hk : k = a
      · simp [alookup, hk] at h
      · simp [alookup, hk] at h ⊢
        exact ih h


theorem foldl_add_points (st : StudentDeductions) (l : List Nat) (a : ℚ) :
    l.foldl (fun acc oid => acc + (heapGet st oid).points) a
      = a + (l.map (fun oid => (heapGet st oid).points)).sum := by
  induction l generalizing a with
  | nil => simp
  | cons hd tl ih =>
      simp only [List.foldl_cons, List.map_cons, List.sum_cons, ih]
      ring

theorem total_deductions_eq_sum (st : StudentDeductions) (key : GroupKey) :
    total_deductions st (some key)
      = ((get_student_deductions st key).map
          (fun oid => (heapGet st oid).points)).sum := by
  simp [total_deductions, get_student_deductions, foldl_add_points]

/-! ### C1: score on accept -/

/-- C1. When the operator accepts with empty input, `get_score` returns
`max(0, max_points − Σ points of the deductions applied to the group)`;
the clamp floors at zero: the score is `0` whenever the deductions total
reaches `max_points`, and is never negative. -/
theorem score_accept_formula (st : StudentDeductions) (key : GroupKey)
    (max_points : ℚ) (a b c : Bool) :
    get_score_step st key max_points a b c "" =
        .score (max 0 (max_points -
          ((get_student_deductions st key).map
            (fun oid => (heapGet st oid).points)).sum))
      ∧ (max_points ≤ ((get_student_deductions st key).map
            (fun oid => (heapGet st oid).points)).sum →
          get_score_step st key max_points a b c "" = .score 0)
      ∧ ∀ q, get_score_step st key max_points a b c "" = .score q → 0 ≤ q := by
  have hstep : get_score_step st key max_points a b c "" =
      .score (max 0 (max_points -
        ((get_student_deductions st key).map
          (fun oid => (heapGet st oid).points)).sum)) := by
    simp [get_score_step, computed_score, total_deductions_eq_sum]
  refine ⟨hstep, fun hge => ?_, fun q hq => ?_⟩
  · rw [hstep]
    have : max_points -
        ((get_student_deductions st key).map
          (fun oid => (heapGet st oid).points)).sum ≤ 0 := by linarith
    simp [max_eq_left this]
  · rw [hstep] at hq
    injection hq with h
    rw [← h]
    exact le_max_left _ _

/-- C1 witness: a group with a single 3-point deduction applied against
10 max points scores 7 on accept. -/
theorem score_accept_formula_witness :
    get_score_step exStore1 ["abc123"] 10 true true false "" =
      .score (max 0 (10 -
        ((get_student_deductions exStore1 ["abc123"]).map
          (fun oid => (heapGet exStore1 oid).points)).sum)) :=
  (score_accept_formula exStore1 ["abc123"] 10 true true false).1

/-! ### C2: gradedness is presence in the store -/

/-- C2. `is_student_graded` is false exactly when the group key has no
entry in `deductions_by_students`; `ensure_student_in_file` creates an
(empty) entry for an absent key, after which the group is graded even
with zero deductions, and the record-score step of `run_grading`
(`set_submit_time` followed by `ensure_student_in_file`) always leaves
the group graded. -/
theorem graded_iff_entry_present (st : StudentDeductions) (key : GroupKey)
    (t : Option String) :
    (is_student_graded st key = false ↔
        alookup st.deductions_by_students key = none)
      ∧ is_student_graded (ensure_student_in_file st key) key = true
      ∧ (alookup st.deductions_by_students key = none →
          get_student_deductions (ensure_student_in_file st key) key = [])
      ∧ is_student_graded (record_score st key t) key = true := by
  have hiff : ∀ s : StudentDeductions,
      is_student_graded s key = true ↔
        (alookup s.deductions_by_students key).isSome = true := by
    intro s; rfl
  have hens : ∀ s : StudentDeductions,
      is_student_graded (ensure_student_in_file s key) key = true := by
    intro s
    unfold is_student_graded ensure_student_in_file
    by_cases h : (alookup s.deductions_by_students key).isSome = true
    · simp [h]
    · simp [h, alookup_ainsert_self]
  refine ⟨?_, hens st, fun habs => ?_, ?_⟩
  · unfold is_student_graded
    cases alookup st.deductions_by_students key <;> simp
  · unfold get_student_deductions ensure_student_in_file
    simp [habs, alookup_ainsert_self]
  · unfold record_score
    exact hens _

/-- C2 witness: a group accepted with no deductions gets an entry and
counts as graded. -/
theorem graded_iff_entry_present_witness :
    (is_student_graded exStore0 ["abc123"] = false ↔
      alookup exStore0.deductions_by_students ["abc123"] = none)
    ∧ is_student_graded (ensure_student_in_file exStore0 ["abc123"]) ["abc123"]
        = true
    ∧ (alookup exStore0.deductions_by_students ["abc123"] = none →
        get_student_deductions (ensure_student_in_file exStore0 ["abc123"])
          ["abc123"] = [])
    ∧ is_student_graded (record_score exStore0 ["abc123"] none) ["abc123"]
        = true :=
  graded_iff_entry_present exStore0 ["abc123"] none

/-! ### C10: clearing removes the whole entry -/

/-- C10. `clear_student_deductions` deletes the group's entry from both
maps: afterwards the stored submit time is gone and the group counts as
not graded, until `ensure_student_in_file` re-creates an entry. -/
theorem clear_removes_group_entry (st : StudentDeductions) (key : GroupKey) :
    get_submit_time (clear_student_deductions st key) key = none
      ∧ is_student_graded (clear_student_deductions st key) key = false
      ∧ is_student_graded
          (ensure_student_in_file (clear_student_deductions st key) key) key
          = true := by
  refine ⟨?_, ?_, ?_⟩
  · simp [get_submit_time, clear_student_deductions, alookup_aerase_self]
  · simp [is_student_graded, clear_student_deductions, alookup_aerase_self]
  · unfold is_student_graded ensure_student_in_file
    by_cases h : (alookup
        (clear_student_deductions st key).deductions_by_students key).isSome = true
    · simp [h]
    · simp [h, alookup_ainsert_self]

/-! ### Lemmas about `apply_deduction_to_student` -/

theorem apply_of_types_none (st : StudentDeductions) (key : GroupKey) (did : Int)
    (h : alookup st.deduction_types did = none) :
    apply_deduction_to_student st key did = (false, st) := by
  unfold apply_deduction_to_student
  rw [h]

theorem apply_preserves_fields (st : StudentDeductions) (key : GroupKey)
    (did : Int) :
    ((apply_deduction_to_student st key did).2).deduction_types
        = st.deduction_types
      ∧ ((apply_deduction_to_student st key did).2).heap = st.heap
      ∧ ((apply_deduction_to_student st key did).2).nextObj = st.nextObj
      ∧ ((apply_deduction_to_student st key did).2).submit_time_by_students
        = st.submit_time_by_students := by
  unfold apply_deduction_to_student
  cases alookup st.deduction_types did
  · simp
  · dsimp only
    split_ifs <;> simp

theorem apply_of_mem (st : StudentDeductions) (key : GroupKey) (did : Int)
    (oid : Nat) (h : alookup st.deduction_types did = some oid)
    (hmem : oid ∈ get_student_deductions st key) :
    apply_deduction_to_student st key did = (true, st) := by
  have hpres : (alookup st.deductions_by_students key).isSome = true := by
    cases hl : alookup st.deductions_by_students key
    · simp [get_student_deductions, hl] at hmem
    · simp
  unfold apply_deduction_to_student
  rw [h]
  dsimp only
  rw [if_pos hpres]
  rw [if_pos (by simpa [get_student_deductions] using hmem)]

theorem apply_mem_self (st : StudentDeductions) (key : GroupKey) (did : Int)
    (oid : Nat) (h : alookup st.deduction_types did = some oid) :
    oid ∈ get_student_deductions (apply_deduction_to_student st key did).2 key := by
  unfold apply_deduction_to_student
  rw [h]
  dsimp only
  by_cases hpres : (alookup st.deductions_by_students key).isSome = true
  · rw [if_pos hpres]
    by_cases hmem : oid ∈ (alookup st.deductions_by_students key).getD []
    · rw [if_pos hmem]
      simpa [get_student_deductions] using hmem
    · rw [if_neg hmem]
      simp [get_student_deductions, alookup_ainsert_self]
  · rw [if_neg hpres]
    have hnone : alookup st.deductions_by_students key = none := by
      cases hl : alookup st.deductions_by_students key
      · rfl
      · simp [hl] at hpres
    have hcur : (alookup (ainsert st.deductions_by_students key ([] : List Nat))
        key).getD [] = [] := by
      simp [alookup_ainsert_self]
    rw [hcur]
    rw [if_neg (List.not_mem_nil oid)]
    simp [get_student_deductions, alookup_ainsert_self]

theorem apply_mem_mono (st : StudentDeductions) (key : GroupKey) (did : Int)
    (x : Nat) (hmem : x ∈ get_student_deductions st key) :
    x ∈ get_student_deductions (apply_deduction_to_student st key did).2 key := by
  cases h : alookup st.deduction_types did with
  | none => rw [apply_of_types_none st key did h]; exact hmem
  | some oid =>
      have hpres : (alookup st.deductions_by_students key).isSome = true := by
        cases hl : alookup st.deductions_by_students key
        · simp [get_student_deductions, hl] at hmem
        · simp
      unfold apply_deduction_to_student
      rw [h]
      dsimp only
      rw [if_pos hpres]
      by_cases hm : oid ∈ (alookup st.deductions_by_students key).getD []
      · rw [if_pos hm]
        exact hmem
      · rw [if_neg hm]
        simp only [get_student_deductions, alookup_ainsert_self, Option.getD_some]
        exact List.mem_append_left _ (by simpa [get_student_deductions] using hmem)

theorem apply_other_key (st : StudentDeductions) (key k' : GroupKey) (did : Int)
    (hne : k' ≠ key) :
    alookup ((apply_deduction_to_student st key did).2).deductions_by_students k'
      = alookup st.deductions_by_students k' := by
  cases h : alookup st.deduction_types did with
  | none => rw [apply_of_types_none st key did h]
  | some oid =>
      unfold apply_deduction_to_student
      rw [h]
      dsimp only
      by_cases hpres : (alookup st.deductions_by_students key).isSome = true
      · rw [if_pos hpres]
        split
        · rfl
        · simp [alookup_ainsert_ne _ _ _ _ (Ne.symm hne)]
      · rw [if_neg hpres]
        split <;>
          simp [alookup_ainsert_ne _ _ _ _ (Ne.symm hne)]

/-! ### C3: applying a deduction is idempotent, membership by identity -/

/-- C3. Re-applying the same deduction type id to a group is a no-op:
the store after the second application equals the store after the first
(in particular the group's deduction list and `total_deductions` are
unchanged), and the success flag is the same.  The membership test is by
object identity: two types with distinct objects but equal message and
points are both applied, not deduplicated. -/
theorem apply_deduction_idempotent_identity (st : StudentDeductions)
    (key : GroupKey) (did did2 : Int) :
    ((apply_deduction_to_student (apply_deduction_to_student st key did).2
        key did).2 = (apply_deduction_to_student st key did).2)
      ∧ ((apply_deduction_to_student (apply_deduction_to_student st key did).2
          key did).1 = (apply_deduction_to_student st key did).1)
      ∧ (total_deductions
          (apply_deduction_to_student (apply_deduction_to_student st key did).2
            key did).2 (some key)
         = total_deductions (apply_deduction_to_student st key did).2 (some key))
      ∧ (∀ oid oid2, alookup st.deduction_types did = some oid →
          alookup st.deduction_types did2 = some oid2 → oid ≠ oid2 →
          heapGet st oid = heapGet st oid2 →
          oid ∈ get_student_deductions
            (apply_deduction_to_student (apply_deduction_to_student st key did).2
              key did2).2 key
          ∧ oid2 ∈ get_student_deductions
            (apply_deduction_to_student (apply_deduction_to_student st key did).2
              key did2).2 key) := by
  have hsecond : ∀ s : StudentDeductions, ∀ oid,
      alookup s.deduction_types did = some oid →
      oid ∈ get_student_deductions s key →
      apply_deduction_to_student s key did = (true, s) := fun s oid h hm =>
    apply_of_mem s key did oid h hm
  constructor
  · cases h : alookup st.deduction_types did with
    | none =>
        rw [apply_of_types_none st key did h]
        rw [apply_of_types_none st key did h]
    | some oid =>
        have htypes :
            alookup ((apply_deduction_to_student st key did).2).deduction_types did
              = some oid := by
          rw [(apply_preserves_fields st key did).1, h]
        have hmem := apply_mem_self st key did oid h
        rw [hsecond _ oid htypes hmem]
  constructor
  · cases h : alookup st.deduction_types did with
    | none =>
        rw [apply_of_types_none st key did h]
        rw [apply_of_types_none st key did h]
    | some oid =>
        have htypes :
            alookup ((apply_deduction_to_student st key did).2).deduction_types did
              = some oid := by
          rw [(apply_preserves_fields st key did).1, h]
        have hmem := apply_mem_self st key did oid h
        rw [hsecond _ oid htypes hmem]
        show true = (apply_deduction_to_student st key did).1
        unfold apply_deduction_to_student
        rw [h]
        dsimp only
        split_ifs <;> rfl
  constructor
  · cases h : alookup st.deduction_types did with
    | none =>
        rw [apply_of_types_none st key did h]
        rw [apply_of_types_none st key did h]
    | some oid =>
        have htypes :
            alookup ((apply_deduction_to_student st key did).2).deduction_types did
              = some oid := by
          rw [(apply_preserves_fields st key did).1, h]
        have hmem := apply_mem_self st key did oid h
        rw [hsecond _ oid htypes hmem]
  · intro oid oid2 h h2 _hne _hval
    have hst1types := (apply_preserves_fields st key did).1
    refine ⟨?_, ?_⟩
    · exact apply_mem_mono _ key did2 oid (apply_mem_self st key did oid h)
    · exact apply_mem_self _ key did2 oid2 (by rw [hst1types]; exact h2)

/-- C3 witness: in a store with two value-equal but distinct deduction
objects, re-applying id 1 is a no-op, while applying id 2 after id 1
adds a second deduction (identity, not value, equality). -/
theorem apply_deduction_idempotent_identity_witness :
    ((apply_deduction_to_student
        (apply_deduction_to_student exStore3 ["grp"] 1).2 ["grp"] 1).2
      = (apply_deduction_to_student exStore3 ["grp"] 1).2)
    ∧ 0 ∈ get_student_deductions
        (apply_deduction_to_student
          (apply_deduction_to_student exStore3 ["grp"] 1).2 ["grp"] 2).2 ["grp"]
    ∧ 1 ∈ get_student_deductions
        (apply_deduction_to_student
          (apply_deduction_to_student exStore3 ["grp"] 1).2 ["grp"] 2).2 ["grp"] := by
  have h := apply_deduction_idempotent_identity exStore3 ["grp"] 1 2
  exact ⟨h.1, (h.2.2.2 0 1 rfl rfl (by decide) rfl).1,
    (h.2.2.2 0 1 rfl rfl (by decide) rfl).2⟩

/-! ### C5: non-negativity of stored deduction points -/

/-- C5 counterexample: `change_deduction_value` performs no validation,
so calling it with a negative value leaves a stored deduction type with
negative points, refuting the claim that every operation preserves
`points ≥ 0`. -/
theorem change_value_negative_counterexample :
    (change_deduction_value exStore2 1 (-5)).1 = true
      ∧ (heapGet (change_deduction_value exStore2 1 (-5)).2 0).points < 0
      ∧ alookup (change_deduction_value exStore2 1 (-5)).2.deduction_types 1
          = some 0 := by
  refine ⟨rfl, ?_, rfl⟩
  show ((-5 : ℚ)) < 0
  norm_num

/-- C5 amended. `add_deduction_type` rejects negative points and stores
the non-negative value it is given; `change_deduction_value` itself
performs no validation and stores whatever value it receives, and the
non-negativity of changed values is enforced only by the interactive
prompt's validation (`deduction_points_valid`), which accepts only
non-negative values. -/
theorem points_nonneg_enforcement (st : StudentDeductions) (msg : String)
    (pts : ℚ) (mp : Option ℚ) (v : ℚ) (did : Int) :
    (pts < 0 →
        add_deduction_type st msg pts
          = .error "Deduction points must be non-negative")
      ∧ (0 ≤ pts → alookup st.heap st.nextObj = none →
          ∃ st', add_deduction_type st msg pts = .ok (nextDeductionId st, st')
            ∧ alookup st'.deduction_types (nextDeductionId st) = some st.nextObj
            ∧ (heapGet st' st.nextObj).points = pts
            ∧ 0 ≤ (heapGet st' st.nextObj).points)
      ∧ (∀ oid, alookup st.deduction_types did = some oid →
          (heapGet (change_deduction_value st did v).2 oid).points = v)
      ∧ (deduction_points_valid mp v = true →
          0 ≤ v ∧ ∀ oid, alookup st.deduction_types did = some oid →
            0 ≤ (heapGet (change_deduction_value st did v).2 oid).points) := by
  have hchange : ∀ oid, alookup st.deduction_types did = some oid →
      (heapGet (change_deduction_value st did v).2 oid).points = v := by
    intro oid h
    unfold change_deduction_value
    rw [h]
    simp [heapGet, alookup_ainsert_self]
  refine ⟨fun hneg => ?_, fun hpos hfresh => ?_, hchange, fun hvalid => ?_⟩
  · unfold add_deduction_type
    rw [if_pos hneg]
  · unfold add_deduction_type
    rw [if_neg (not_lt.mpr hpos)]
    have hlook : alookup (st.heap ++ [(st.nextObj, ⟨msg, pts⟩)]) st.nextObj
        = some ⟨msg, pts⟩ := alookup_append_fresh _ _ _ hfresh
    refine ⟨_, rfl, alookup_ainsert_self _ _ _, ?_, ?_⟩
    · simp [heapGet, hlook]
    · simp [heapGet, hlook, hpos]
  · have hge : 0 ≤ v := by
      unfold deduction_points_valid at hvalid
      by_cases hv : v < 0
      · rw [if_pos hv] at hvalid
        exact absurd hvalid (by simp)
      · exact not_lt.mp hv
    exact ⟨hge, fun oid h => by rw [hchange oid h]; exact hge⟩

/-- C5 amended witness: adding with −1 points is rejected, and a
prompt-validated value 3 stored through `change_deduction_value` leaves
non-negative points. -/
theorem points_nonneg_enforcement_witness :
    add_deduction_type exStore0 "new"
        (-1) = .error "Deduction points must be non-negative"
      ∧ 0 ≤ (heapGet (change_deduction_value exStore2 1 3).2 0).points := by
  have h1 := (points_nonneg_enforcement exStore0 "new" (-1) none 0 0).1
  have h2 := (points_nonneg_enforcement exStore2 "x" 0 (some 10) 3 1).2.2.2
  refine ⟨h1 (by norm_num), ?_⟩
  exact (h2 (by norm_num [deduction_points_valid])).2 0 rfl

/-! ### C7: deleting a deduction type -/

/-- C7. `is_deduction_in_use` holds exactly when the type id exists and
its object is referenced by some group's deduction list;
`delete_deduction_type` returns `False` and leaves the store unchanged
when the id is unknown or in use, and deletes exactly that id from the
table (touching nothing else) and returns `True` when the id exists and
is unreferenced. -/
theorem delete_deduction_type_spec (st : StudentDeductions) (did : Int) :
    (is_deduction_in_use st did = true ↔
        ∃ oid, alookup st.deduction_types did = some oid ∧
          ∃ e ∈ st.deductions_by_students, oid ∈ e.2)
      ∧ (alookup st.deduction_types did = none →
          delete_deduction_type st did = (false, st))
      ∧ (is_deduction_in_use st did = true →
          delete_deduction_type st did = (false, st))
      ∧ (alookup st.deduction_types did ≠ none →
          is_deduction_in_use st did = false →
          (delete_deduction_type st did).1 = true
            ∧ alookup ((delete_deduction_type st did).2).deduction_types did = none
            ∧ (∀ d2, d2 ≠ did →
                alookup ((delete_deduction_type st did).2).deduction_types d2
                  = alookup st.deduction_types d2)
            ∧ ((delete_deduction_type st did).2).deductions_by_students
                = st.deductions_by_students
            ∧ ((delete_deduction_type st did).2).heap = st.heap
            ∧ ((delete_deduction_type st did).2).submit_time_by_students
                = st.submit_time_by_students) := by
  refine ⟨?_, fun hnone => ?_, fun huse => ?_, fun hsome hfree => ?_⟩
  · unfold is_deduction_in_use
    cases h : alookup st.deduction_types did with
    | none => simp [h]
    | some oid =>
        simp only [h, List.any_eq_true, decide_eq_true_eq]
        constructor
        · rintro ⟨e, he, hm⟩
          exact ⟨oid, rfl, e, he, hm⟩
        · rintro ⟨oid', hoid', e, he, hm⟩
          rw [Option.some.injEq] at hoid'
          exact ⟨e, he, hoid' ▸ hm⟩
  · unfold delete_deduction_type
    rw [if_pos (by simp [hnone])]
  · unfold delete_deduction_type
    by_cases h : (alookup st.deduction_types did).isNone = true
    · rw [if_pos h]
    · rw [if_neg h, if_pos huse]
  · unfold delete_deduction_type
    rw [if_neg (by simpa [Option.isNone_iff_eq_none] using hsome),
      if_neg (by simp [hfree])]
    exact ⟨rfl, alookup_aerase_self _ _,
      fun d2 hne => alookup_aerase_ne _ _ _ (Ne.symm hne), rfl, rfl, rfl⟩

/-- C7 witness: in `exStore4`, deleting the in-use type 1 is refused and
the store is unchanged; deleting the unreferenced type 2 succeeds and
removes only that id. -/
theorem delete_deduction_type_spec_witness :
    delete_deduction_type exStore4 1 = (false, exStore4)
      ∧ (delete_deduction_type exStore4 2).1 = true
      ∧ alookup ((delete_deduction_type exStore4 2).2).deduction_types 2 = none
      ∧ alookup ((delete_deduction_type exStore4 2).2).deduction_types 1
          = alookup exStore4.deduction_types 1
      ∧ ((delete_deduction_type exStore4 2).2).deductions_by_students
          = exStore4.deductions_by_students := by
  have h1 := (delete_deduction_type_spec exStore4 1).2.2.1
  have h2 := (delete_deduction_type_spec exStore4 2).2.2.2
  have h2' := h2 (by decide) (by decide)
  exact ⟨h1 (by decide), h2'.1, h2'.2.1, h2'.2.2.1 1 (by decide), h2'.2.2.2.1⟩

/-! ### Lemmas for the comma-separated deduction batch (C6) -/

theorem applyIds_preserves_types (key : GroupKey) (ids : List Int) :
    ∀ st : StudentDeductions,
      (applyDeductionIds st key ids).deduction_types = st.deduction_types := by
  induction ids with
  | nil => intro st; rfl
  | cons d t ih =>
      intro st
      show (applyDeductionIds (apply_deduction_to_student st key d).2 key t).deduction_types
        = st.deduction_types
      rw [ih, (apply_preserves_fields st key d).1]

theorem applyIds_mem_mono (key : GroupKey) (ids : List Int) (x : Nat) :
    ∀ st : StudentDeductions, x ∈ get_student_deductions st key →
      x ∈ get_student_deductions (applyDeductionIds st key ids) key := by
  induction ids with
  | nil => intro st h; exact h
  | cons d t ih =>
      intro st h
      exact ih _ (apply_mem_mono st key d x h)

theorem applyIds_mem_of_mem (key : GroupKey) (ids : List Int) (d : Int)
    (oid : Nat) :
    ∀ st : StudentDeductions, d ∈ ids →
      alookup st.deduction_types d = some oid →
      oid ∈ get_student_deductions (applyDeductionIds st key ids) key := by
  induction ids with
  | nil => intro st h; cases h
  | cons q t ih =>
      intro st hmem hlook
      rcases List.mem_cons.mp hmem with heq | htail
      · subst heq
        exact applyIds_mem_mono key t oid _ (apply_mem_self st key d oid hlook)
      · exact ih _ htail (by rw [(apply_preserves_fields st key q).1]; exact hlook)

theorem collect_none_of_invalid (st : StudentDeductions) (parts : List String)
    (p : String) (hp : p ∈ parts) (hv : part_valid st p = false) :
    collectValidIds st parts = none := by
  induction parts with
  | nil => cases hp
  | cons q rest ih =>
      rcases List.mem_cons.mp hp with heq | htail
      · subst heq
        unfold part_valid at hv
        unfold collectValidIds
        cases hq : parsePyInt p with
        | none => simp [hq]
        | some dp =>
            simp only [hq] at hv
            by_cases hle : dp ≤ 0
            · simp [hq, hle]
            · simp only [if_neg hle] at hv
              simp [hq, hle, hv]
      · unfold collectValidIds
        cases hq : parsePyInt q with
        | none => simp [hq]
        | some dq =>
            by_cases hle : dq ≤ 0
            · simp [hq, hle]
            · by_cases hlk : (alookup st.deduction_types dq).isSome = true
              · simp [hq, hle, hlk, ih htail]
              · simp [hq, hle, hlk]

theorem collect_some_of_valid (st : StudentDeductions) (parts : List String)
    (hv : ∀ p ∈ parts, part_valid st p = true) :
    ∃ ids, collectValidIds st parts = some ids
      ∧ (∀ p ∈ parts, ∀ d, parsePyInt p = some d → d ∈ ids)
      ∧ (∀ d ∈ ids, (alookup st.deduction_types d).isSome = true) := by
  induction parts with
  | nil => exact ⟨[], rfl, by simp, by simp⟩
  | cons q rest ih =>
      have hq := hv q (List.mem_cons_self q rest)
      unfold part_valid at hq
      cases hpq : parsePyInt q with
      | none => simp [hpq] at hq
      | some dq =>
          simp only [hpq] at hq
          by_cases hle : dq ≤ 0
          · rw [if_pos hle] at hq
            exact absurd hq (by simp)
          · rw [if_neg hle] at hq
            obtain ⟨ids', hcol, hmem, hlook⟩ :=
              ih (fun p hp => hv p (List.mem_cons_of_mem q hp))
            refine ⟨dq :: ids', ?_, ?_, ?_⟩
            · unfold collectValidIds
              simp [hpq, hle, hq, hcol]
            · intro p hp d hpd
              rcases List.mem_cons.mp hp with heq | htail
              · subst heq
                rw [hpq] at hpd
                rw [Option.some.injEq] at hpd
                exact List.mem_cons.mpr (Or.inl hpd.symm)
              · exact List.mem_cons_of_mem _ (hmem p htail d hpd)
            · intro d hd
              rcases List.mem_cons.mp hd with heq | htail
              · subst heq; exact hq
              · exact hlook d htail

theorem clear_mem_allowed_cmds (a b c : Bool) :
    MenuCommand.CLEAR_DEDUCTIONS ∈ allowed_cmds a b c := by
  cases a <;> cases b <;> cases c <;> simp [allowed_cmds]

/-! ### C6: comma-separated deduction lists apply atomically -/

/-- C6. For an input that is neither empty nor a menu command, the
comma-separated parts are validated as a whole: when every part parses
to a positive id present in the type table, the step applies the whole
batch (every listed type's object ends up in the group's list); when
any part is invalid, the step loops with the store exactly unchanged. -/
theorem deduction_batch_atomic (st : StudentDeductions) (key : GroupKey)
    (mp : ℚ) (a b c : Bool) (txt : String) (hne : txt ≠ "")
    (hcmd : ∀ cmd ∈ allowed_cmds a b c, cmd.value ≠ txt) :
    ((∀ p ∈ (pySplit txt ',').map pyStrip, part_valid st p = true) →
        ∃ ids, collectValidIds st ((pySplit txt ',').map pyStrip) = some ids
          ∧ get_score_step st key mp a b c txt
              = .loop (applyDeductionIds st key ids)
          ∧ (∀ p ∈ (pySplit txt ',').map pyStrip, ∀ d,
              parsePyInt p = some d →
              ∀ oid, alookup st.deduction_types d = some oid →
                oid ∈ get_student_deductions (applyDeductionIds st key ids) key))
      ∧ ((∃ p ∈ (pySplit txt ',').map pyStrip, part_valid st p = false) →
          get_score_step st key mp a b c txt = .loop st) := by
  have hfind : (allowed_cmds a b c).find? (fun cm => cm.value == txt) = none := by
    rw [List.find?_eq_none]
    intro x hx
    simp [hcmd x hx]
  have h0 : txt ≠ MenuCommand.CLEAR_DEDUCTIONS.value :=
    Ne.symm (hcmd MenuCommand.CLEAR_DEDUCTIONS (clear_mem_allowed_cmds a b c))
  have hstep : get_score_step st key mp a b c txt =
      match collectValidIds st ((pySplit txt ',').map pyStrip) with
      | some (d :: ds) => .loop (applyDeductionIds st key (d :: ds))
      | _ => .loop st := by
    unfold get_score_step
    rw [if_neg hne, hfind]
    dsimp only
    rw [if_neg h0]
  constructor
  · intro hv
    obtain ⟨ids, hcol, hmem, _⟩ := collect_some_of_valid st _ hv
    refine ⟨ids, hcol, ?_, ?_⟩
    · rw [hstep, hcol]
      cases ids with
      | nil => rfl
      | cons d ds => rfl
    · intro p hp d hpd oid hoid
      exact applyIds_mem_of_mem key ids d oid st (hmem p hp d hpd) hoid
  · rintro ⟨p, hp, hvp⟩
    rw [hstep, collect_none_of_invalid st _ p hp hvp]

/-- C6 witness: in a store with types 1 and 2, input `"1, 2"` applies
both; input `"1,99"` (99 unknown) applies nothing and leaves the store
unchanged. -/
theorem deduction_batch_atomic_witness :
    (∃ ids,
        collectValidIds exStore3 ((pySplit "1, 2" ',').map pyStrip) = some ids
        ∧ get_score_step exStore3 ["grp"] 10 true true false "1, 2"
            = .loop (applyDeductionIds exStore3 ["grp"] ids))
      ∧ get_score_step exStore3 ["grp"] 10 true true false "1,99"
          = .loop exStore3 := by
  have h1 := (deduction_batch_atomic exStore3 ["grp"] 10 true true false "1, 2"
    (by decide) (by decide)).1
  have h2 := (deduction_batch_atomic exStore3 ["grp"] 10 true true false "1,99"
    (by decide) (by decide)).2
  obtain ⟨ids, hids, hstep, _⟩ := h1 (by decide)
  exact ⟨⟨ids, hids, hstep⟩, h2 (by decide)⟩

/-! ### Lemmas for undo (C4) -/

theorem clear_of_absent (st : StudentDeductions) (key : GroupKey)
    (h1 : alookup st.deductions_by_students key = none)
    (h2 : alookup st.submit_time_by_students key = none) :
    clear_student_deductions st key = st := by
  unfold clear_student_deductions
  rw [aerase_of_alookup_none _ _ h1, aerase_of_alookup_none _ _ h2]

theorem clear_comm (st : StudentDeductions) (a b : GroupKey) :
    clear_student_deductions (clear_student_deductions st a) b
      = clear_student_deductions (clear_student_deductions st b) a := by
  unfold clear_student_deductions
  simp [aerase_aerase_comm]

theorem clear_runGradeOp (st : StudentDeductions) (key : GroupKey)
    (op : GradeOp) :
    clear_student_deductions (runGradeOp st key op) key
      = clear_student_deductions st key := by
  cases op with
  | applyDeduction did =>
      show clear_student_deductions (apply_deduction_to_student st key did).2 key
        = clear_student_deductions st key
      cases h : alookup st.deduction_types did with
      | none => rw [apply_of_types_none st key did h]
      | some oid =>
          unfold apply_deduction_to_student
          rw [h]
          dsimp only
          split_ifs <;>
            simp [clear_student_deductions, aerase_ainsert_same]
  | clear =>
      show clear_student_deductions (clear_student_deductions st key) key
        = clear_student_deductions st key
      simp [clear_student_deductions, aerase_idem]
  | ensure =>
      show clear_student_deductions (ensure_student_in_file st key) key
        = clear_student_deductions st key
      unfold ensure_student_in_file
      split_ifs with h
      · rfl
      · simp [clear_student_deductions, aerase_ainsert_same]
  | setSubmit t =>
      show clear_student_deductions (set_submit_time st key t) key
        = clear_student_deductions st key
      cases t with
      | none => simp [set_submit_time, clear_student_deductions, aerase_idem]
      | some s =>
          unfold set_submit_time
          dsimp only
          split_ifs <;>
            simp [clear_student_deductions, aerase_idem, aerase_ainsert_same]

theorem clear_runGradeOps (key : GroupKey) (ops : List GradeOp) :
    ∀ st : StudentDeductions,
      clear_student_deductions (runGradeOps st key ops) key
        = clear_student_deductions st key := by
  induction ops with
  | nil => intro st; rfl
  | cons op t ih =>
      intro st
      show clear_student_deductions (runGradeOps (runGradeOp st key op) key t) key
        = clear_student_deductions st key
      rw [ih, clear_runGradeOp]

theorem runGradeOp_other_key (st : StudentDeductions) (key k' : GroupKey)
    (op : GradeOp) (hne : k' ≠ key) :
    alookup (runGradeOp st key op).deductions_by_students k'
        = alookup st.deductions_by_students k'
      ∧ alookup (runGradeOp st key op).submit_time_by_students k'
        = alookup st.submit_time_by_students k' := by
  cases op with
  | applyDeduction did =>
      constructor
      · exact apply_other_key st key k' did hne
      · show alookup
            ((apply_deduction_to_student st key did).2).submit_time_by_students k'
          = alookup st.submit_time_by_students k'
        rw [(apply_preserves_fields st key did).2.2.2]
  | clear =>
      exact ⟨alookup_aerase_ne _ _ _ (Ne.symm hne),
        alookup_aerase_ne _ _ _ (Ne.symm hne)⟩
  | ensure =>
      show alookup (ensure_student_in_file st key).deductions_by_students k'
          = alookup st.deductions_by_students k'
        ∧ alookup (ensure_student_in_file st key).submit_time_by_students k'
          = alookup st.submit_time_by_students k'
      unfold ensure_student_in_file
      split_ifs
      · exact ⟨rfl, rfl⟩
      · exact ⟨alookup_ainsert_ne _ _ _ _ (Ne.symm hne), rfl⟩
  | setSubmit t =>
      show alookup (set_submit_time st key t).deductions_by_students k'
          = alookup st.deductions_by_students k'
        ∧ alookup (set_submit_time st key t).submit_time_by_students k'
          = alookup st.submit_time_by_students k'
      cases t with
      | none => exact ⟨rfl, alookup_aerase_ne _ _ _ (Ne.symm hne)⟩
      | some s =>
          unfold set_submit_time
          dsimp only
          split_ifs
          · exact ⟨rfl, alookup_aerase_ne _ _ _ (Ne.symm hne)⟩
          · exact ⟨rfl, alookup_ainsert_ne _ _ _ _ (Ne.symm hne)⟩

theorem runGradeOps_other_key (key k' : GroupKey) (ops : List GradeOp)
    (hne : k' ≠ key) :
    ∀ st : StudentDeductions,
      alookup (runGradeOps st key ops).deductions_by_students k'
          = alookup st.deductions_by_students k'
        ∧ alookup (runGradeOps st key ops).submit_time_by_students k'
          = alookup st.submit_time_by_students k' := by
  induction ops with
  | nil => intro st; exact ⟨rfl, rfl⟩
  | cons op t ih =>
      intro st
      have h1 := runGradeOp_other_key st key k' op hne
      have h2 := ih (runGradeOp st key op)
      exact ⟨h2.1.trans h1.1, h2.2.trans h1.2⟩

theorem undo_pointwise (st : StudentDeductions) (B C : GroupKey)
    (obs ocs : List GradeOp) (hCB : C ≠ B)
    (hB1 : alookup st.deductions_by_students B = none)
    (hB2 : alookup st.submit_time_by_students B = none)
    (hC1 : alookup st.deductions_by_students C = none)
    (hC2 : alookup st.submit_time_by_students C = none) :
    clear_student_deductions
      (clear_student_deductions (runGradeOps (runGradeOps st B obs) C ocs) B) C
      = st := by
  rw [clear_comm]
  rw [clear_runGradeOps C ocs]
  have habs := runGradeOps_other_key B C obs hCB st
  rw [clear_of_absent _ C (habs.1.trans hC1) (habs.2.trans hC2)]
  rw [clear_runGradeOps B obs]
  exact clear_of_absent _ B hB1 hB2

theorem undo_stores_list (B C : GroupKey) (hCB : C ≠ B) :
    ∀ (sts : List StudentDeductions) (obs ocs : List (List GradeOp)),
      obs.length = sts.length → ocs.length = sts.length →
      (∀ st ∈ sts, alookup st.deductions_by_students B = none
        ∧ alookup st.submit_time_by_students B = none) →
      (∀ st ∈ sts, alookup st.deductions_by_students C = none
        ∧ alookup st.submit_time_by_students C = none) →
      (List.zipWith (fun st ops => runGradeOps st C ops)
          (List.zipWith (fun st ops => runGradeOps st B ops) sts obs) ocs).map
        (fun st => clear_student_deductions (clear_student_deductions st B) C)
        = sts := by
  intro sts
  induction sts with
  | nil => intro obs ocs _ _ _ _; simp
  | cons st tl ih =>
      intro obs ocs hlb hlc habsB habsC
      cases obs with
      | nil => simp at hlb
      | cons ob obs' =>
          cases ocs with
          | nil => simp at hlc
          | cons oc ocs' =>
              simp only [List.zipWith_cons_cons, List.map_cons, List.cons.injEq]
              constructor
              · exact undo_pointwise st B C ob oc hCB
                  (habsB st (List.mem_cons_self st tl)).1
                  (habsB st (List.mem_cons_self st tl)).2
                  (habsC st (List.mem_cons_self st tl)).1
                  (habsC st (List.mem_cons_self st tl)).2
              · exact ih obs' ocs'
                  (by simpa using hlb) (by simpa using hlc)
                  (fun s hs => habsB s (List.mem_cons_of_mem st hs))
                  (fun s hs => habsC s (List.mem_cons_of_mem st hs))

/-! ### C4: undo round-trip -/

/-- C4. After grading group B (at session index `s0.idx`) and then
making partial progress on the next group C, invoking undo removes B's
(and C's partial) records across every item simultaneously, restoring
each item's store to its exact pre-B state, and moves the session index
back to B's row so B is re-presented before any other group. -/
theorem undo_restores_pre_b_state (s0 : SessionState) (B C : GroupKey)
    (opssB opssC : List (List GradeOp)) (hCB : C ≠ B)
    (hlenB : opssB.length = s0.stores.length)
    (hlenC : opssC.length = s0.stores.length)
    (habsB : ∀ st ∈ s0.stores, alookup st.deductions_by_students B = none
      ∧ alookup st.submit_time_by_students B = none)
    (habsC : ∀ st ∈ s0.stores, alookup st.deductions_by_students C = none
      ∧ alookup st.submit_time_by_students C = none) :
    (undoAtCurrent (partialGrade (finishStudent s0 B opssB) C opssC) C).stores
        = s0.stores
      ∧ (undoAtCurrent (partialGrade (finishStudent s0 B opssB) C opssC) C).idx
        = s0.idx
      ∧ (undoAtCurrent (partialGrade (finishStudent s0 B opssB) C opssC) C).prevIdx
        = none
      ∧ (undoAtCurrent (partialGrade (finishStudent s0 B opssB) C opssC) C).lastGraded
        = none := by
  refine ⟨?_, rfl, rfl, rfl⟩
  show (List.zipWith (fun st ops => runGradeOps st C ops)
      (List.zipWith (fun st ops => runGradeOps st B ops) s0.stores opssB)
      opssC).map
    (fun st => clear_student_deductions (clear_student_deductions st B) C)
    = s0.stores
  exact undo_stores_list B C hCB s0.stores opssB opssC
    (hlenB.trans rfl) (hlenC.trans rfl) habsB habsC

/-- C4 witness: one item, B graded with a deduction, partial progress on
C, then undo: the store is back to the initial one and the index returns
to B's row. -/
theorem undo_restores_pre_b_state_witness :
    (undoAtCurrent (partialGrade
        (finishStudent ⟨[exStore2], 0, none, none⟩ ["b1"]
          [[GradeOp.applyDeduction 1, GradeOp.ensure]])
        ["c1"] [[GradeOp.applyDeduction 1]]) ["c1"]).stores = [exStore2]
      ∧ (undoAtCurrent (partialGrade
          (finishStudent ⟨[exStore2], 0, none, none⟩ ["b1"]
            [[GradeOp.applyDeduction 1, GradeOp.ensure]])
          ["c1"] [[GradeOp.applyDeduction 1]]) ["c1"]).idx = 0 := by
  have h := undo_restores_pre_b_state ⟨[exStore2], 0, none, none⟩ ["b1"] ["c1"]
    [[GradeOp.applyDeduction 1, GradeOp.ensure]] [[GradeOp.applyDeduction 1]]
    (by decide) rfl rfl (by decide) (by decide)
  exact ⟨h.1, h.2.1⟩

/-! ### Order lemmas for Python tuple comparison (C8) -/

theorem pyTupleLe_refl : ∀ a : List Nat, pyTupleLe a a = true
  | [] => rfl
  | x :: xs => by
      unfold pyTupleLe
      simp [lt_irrefl, pyTupleLe_refl xs]

theorem pyTupleLt_of_not_le : ∀ a b : List Nat,
    pyTupleLe a b = false → pyTupleLt b a = true
  | [], b, h => by simp [pyTupleLe] at h
  | x :: xs, [], _ => rfl
  | x :: xs, y :: ys, h => by
      unfold pyTupleLe at h
      unfold pyTupleLt
      by_cases hxy : x < y
      · simp [hxy] at h
      · by_cases hyx : y < x
        · simp [hyx]
        · simp only [if_neg hxy, if_neg hyx] at h
          simp [hxy, hyx, pyTupleLt_of_not_le xs ys h]

theorem pyTupleLe_of_lt : ∀ a b : List Nat,
    pyTupleLt a b = true → pyTupleLe a b = true
  | [], b, _ => rfl
  | x :: xs, [], h => by simp [pyTupleLt] at h
  | x :: xs, y :: ys, h => by
      unfold pyTupleLt at h
      unfold pyTupleLe
      by_cases hxy : x < y
      · simp [hxy]
      · by_cases hyx : y < x
        · simp [hxy, hyx] at h
        · simp only [if_neg hxy, if_neg hyx] at h
          simp [hxy, hyx, pyTupleLe_of_lt xs ys h]

theorem pyTupleLe_trans : ∀ a b c : List Nat,
    pyTupleLe a b = true → pyTupleLe b c = true → pyTupleLe a c = true
  | [], _, _, _, _ => rfl
  | x :: xs, [], _, h1, _ => by simp [pyTupleLe] at h1
  | x :: xs, y :: ys, [], _, h2 => by simp [pyTupleLe] at h2
  | x :: xs, y :: ys, z :: zs, h1, h2 => by
      unfold pyTupleLe at h1 h2 ⊢
      by_cases hxy : x < y
      · by_cases hyz : y < z
        · simp [show x < z by omega]
        · by_cases hzy : z < y
          · simp [hyz, hzy] at h2
          · have hyzeq : y = z := by omega
            simp [show x < z by omega]
      · by_cases hyx : y < x
        · simp [hxy, hyx] at h1
        · have hxyeq : x = y := by omega
          simp only [if_neg hxy, if_neg hyx] at h1
          by_cases hyz : y < z
          · simp [show x < z by omega]
          · by_cases hzy : z < y
            · simp [hyz, hzy] at h2
            · have hyzeq : y = z := by omega
              simp only [if_neg hyz, if_neg hzy] at h2
              simp [show ¬ x < z by omega, show ¬ z < x by omega,
                pyTupleLe_trans xs ys zs h1 h2]

theorem pyTupleLt_of_le_of_lt : ∀ a b c : List Nat,
    pyTupleLe a b = true → pyTupleLt b c = true → pyTupleLt a c = true
  | [], b, [], _, h2 => by cases b <;> simp [pyTupleLt] at h2
  | [], _, z :: zs, _, _ => rfl
  | x :: xs, [], _, h1, _ => by simp [pyTupleLe] at h1
  | x :: xs, y :: ys, [], _, h2 => by simp [pyTupleLt] at h2
  | x :: xs, y :: ys, z :: zs, h1, h2 => by
      unfold pyTupleLe at h1
      unfold pyTupleLt at h2 ⊢
      by_cases hxy : x < y
      · by_cases hyz : y < z
        · simp [show x < z by omega]
        · by_cases hzy : z < y
          · simp [hyz, hzy] at h2
          · simp [show x < z by omega]
      · by_cases hyx : y < x
        · simp [hxy, hyx] at h1
        · have hxyeq : x = y := by omega
          simp only [if_neg hxy, if_neg hyx] at h1
          by_cases hyz : y < z
          · simp [show x < z by omega]
          · by_cases hzy : z < y
            · simp [hyz, hzy] at h2
            · simp only [if_neg hyz, if_neg hzy] at h2
              simp [show ¬ x < z by omega, show ¬ z < x by omega,
                pyTupleLt_of_le_of_lt xs ys zs h1 h2]

/-! ### Champion characterization and extraction fold lemmas (C8) -/

theorem championAux_cons (acc e : ZipEntry) (es : List ZipEntry) :
    championAux acc (e :: es)
      = if pyTupleLe e.date_time acc.date_time = true then championAux acc es
        else championAux e es := rfl

theorem championAux_spec : ∀ (cs : List ZipEntry) (acc : ZipEntry),
    (championAux acc cs = acc
      ∧ ∀ m ∈ cs, pyTupleLe m.date_time acc.date_time = true)
    ∨ (∃ pre post, cs = pre ++ championAux acc cs :: post
        ∧ pyTupleLt acc.date_time (championAux acc cs).date_time = true
        ∧ (∀ m ∈ pre, pyTupleLt m.date_time (championAux acc cs).date_time = true)
        ∧ (∀ m ∈ post,
            pyTupleLe m.date_time (championAux acc cs).date_time = true)) := by
  intro cs
  induction cs with
  | nil => intro acc; exact Or.inl ⟨rfl, by simp⟩
  | cons e rest ih =>
      intro acc
      by_cases h : pyTupleLe e.date_time acc.date_time = true
      · have hred : championAux acc (e :: rest) = championAux acc rest := by
          rw [championAux_cons, if_pos h]
        rw [hred]
        rcases ih acc with ⟨hw, hall⟩ | ⟨pre, post, hdec, hlt, hpre, hpost⟩
        · left
          rw [hw]
          refine ⟨rfl, fun m hm => ?_⟩
          rcases List.mem_cons.mp hm with heq | htail
          · subst heq; exact h
          · exact hall m htail
        · right
          refine ⟨e :: pre, post, by rw [List.cons_append, ← hdec], hlt,
            fun m hm => ?_, hpost⟩
          rcases List.mem_cons.mp hm with heq | htail
          · subst heq
            exact pyTupleLt_of_le_of_lt _ _ _ h hlt
          · exact hpre m htail
      · have hlt0 : pyTupleLt acc.date_time e.date_time = true :=
          pyTupleLt_of_not_le _ _ (by simpa using h)
        have hred : championAux acc (e :: rest) = championAux e rest := by
          rw [championAux_cons, if_neg (by simpa using h)]
        rw [hred]
        rcases ih e with ⟨hw, hall⟩ | ⟨pre, post, hdec, hlt, hpre, hpost⟩
        · right
          rw [hw]
          exact ⟨[], rest, rfl, hlt0, by simp, hall⟩
        · right
          refine ⟨e :: pre, post, by rw [List.cons_append, ← hdec],
            pyTupleLt_of_le_of_lt _ _ _ (pyTupleLe_of_lt _ _ hlt0) hlt,
            fun m hm => ?_, hpost⟩
          rcases List.mem_cons.mp hm with heq | htail
          · subst heq; exact hlt
          · exact hpre m htail

theorem champion_spec (ms : List ZipEntry) (w : ZipEntry)
    (h : champion ms = some w) :
    (∃ pre post, ms = pre ++ w :: post
        ∧ (∀ m ∈ pre, pyTupleLt m.date_time w.date_time = true)
        ∧ (∀ m ∈ post, pyTupleLe m.date_time w.date_time = true))
      ∧ ∀ m ∈ ms, pyTupleLe m.date_time w.date_time = true := by
  cases ms with
  | nil => cases h
  | cons e rest =>
      unfold champion at h
      rw [Option.some.injEq] at h
      subst h
      rcases championAux_spec rest e with ⟨hw, hall⟩ | ⟨pre, post, hdec, hlt, hpre, hpost⟩
      · rw [hw]
        refine ⟨⟨[], rest, rfl, by simp, hall⟩, fun m hm => ?_⟩
        rcases List.mem_cons.mp hm with heq | htail
        · subst heq; exact pyTupleLe_refl _
        · exact hall m htail
      · refine ⟨⟨e :: pre, post, by rw [List.cons_append, ← hdec],
          fun m hm => ?_, hpost⟩, fun m hm => ?_⟩
        · rcases List.mem_cons.mp hm with heq | htail
          · subst heq; exact hlt
          · exact hpre m htail
        · rcases List.mem_cons.mp hm with heq | htail
          · subst heq; exact pyTupleLe_of_lt _ _ hlt
          · rw [hdec] at htail
            rcases List.mem_append.mp htail with hp | hc
            · exact pyTupleLe_of_lt _ _ (hpre m hp)
            · rcases List.mem_cons.mp hc with heq | hpost'
              · subst heq; exact pyTupleLe_refl _
              · exact hpost m hpost'

theorem extractStep_other_dest (s : ExtractState) (e : ZipEntry) (d : String)
    (hne : e.dest ≠ d) :
    alookup (extractStep s e).extracted_by_name d = alookup s.extracted_by_name d
      ∧ alookup (extractStep s e).count_by_filename d
        = alookup s.count_by_filename d
      ∧ alookup (extractStep s e).files d = alookup s.files d := by
  unfold extractStep
  cases alookup s.extracted_by_name e.dest
  · exact ⟨alookup_ainsert_ne _ _ _ _ hne, alookup_ainsert_ne _ _ _ _ hne,
      alookup_ainsert_ne _ _ _ _ hne⟩
  · dsimp only
    split_ifs
    · exact ⟨rfl, alookup_ainsert_ne _ _ _ _ hne, rfl⟩
    · exact ⟨alookup_ainsert_ne _ _ _ _ hne, alookup_ainsert_ne _ _ _ _ hne,
        alookup_ainsert_ne _ _ _ _ hne⟩

theorem extract_fold_extracted (d : String) : ∀ (es : List ZipEntry)
    (s : ExtractState),
    alookup (es.foldl extractStep s).extracted_by_name d
      = championFrom (alookup s.extracted_by_name d)
          (es.filter (fun e => e.dest = d)) := by
  intro es
  induction es with
  | nil =>
      intro s
      cases h : alookup s.extracted_by_name d <;>
        simp [h, championFrom, champion, championAux]
  | cons e rest ih =>
      intro s
      show alookup (rest.foldl extractStep (extractStep s e)).extracted_by_name d
        = _
      by_cases hd : e.dest = d
      · have hfilter : (e :: rest).filter (fun x => x.dest = d)
            = e :: rest.filter (fun x => x.dest = d) := by
          simp [List.filter_cons, hd]
        rw [hfilter]
        cases hlook : alookup s.extracted_by_name d with
        | none =>
            have hstep : alookup (extractStep s e).extracted_by_name d
                = some e := by
              unfold extractStep
              rw [hd, hlook]
              exact alookup_ainsert_self _ _ _
            rw [ih (extractStep s e), hstep]
            rfl
        | some c =>
            by_cases hle : pyTupleLe e.date_time c.date_time = true
            · have hstep : alookup (extractStep s e).extracted_by_name d
                  = some c := by
                unfold extractStep
                rw [hd, hlook]
                dsimp only
                rw [if_pos hle]
                exact hlook
              rw [ih (extractStep s e), hstep]
              show some (championAux c (rest.filter (fun x => x.dest = d)))
                = some (championAux c (e :: rest.filter (fun x => x.dest = d)))
              rw [championAux_cons, if_pos hle]
            · have hstep : alookup (extractStep s e).extracted_by_name d
                  = some e := by
                unfold extractStep
                rw [hd, hlook]
                dsimp only
                rw [if_neg hle]
                exact alookup_ainsert_self _ _ _
              rw [ih (extractStep s e), hstep]
              show some (championAux e (rest.filter (fun x => x.dest = d)))
                = some (championAux c (e :: rest.filter (fun x => x.dest = d)))
              rw [championAux_cons, if_neg hle]
      · have hfilter : (e :: rest).filter (fun x => x.dest = d)
            = rest.filter (fun x => x.dest = d) := by
          simp [List.filter_cons, hd]
        rw [hfilter, ih (extractStep s e),
          (extractStep_other_dest s e d hd).1]

theorem extract_fold_files (d : String) : ∀ (es : List ZipEntry)
    (s : ExtractState),
    alookup s.files d
        = (alookup s.extracted_by_name d).map (fun e => e.content) →
    alookup (es.foldl extractStep s).files d
      = (alookup (es.foldl extractStep s).extracted_by_name d).map
          (fun e => e.content) := by
  intro es
  induction es with
  | nil => intro s h; exact h
  | cons e rest ih =>
      intro s h
      show alookup (rest.foldl extractStep (extractStep s e)).files d = _
      refine ih (extractStep s e) ?_
      by_cases hd : e.dest = d
      · subst hd
        unfold extractStep
        cases hlook : alookup s.extracted_by_name e.dest with
        | none => simp [alookup_ainsert_self]
        | some c =>
            dsimp only
            split_ifs
            · dsimp only
              rw [hlook]
              rw [hlook] at h
              exact h
            · simp [alookup_ainsert_self]
      · have hfr := extractStep_other_dest s e d hd
        rw [hfr.1, hfr.2.2]
        exact h

theorem extract_fold_counts (d : String) : ∀ (es : List ZipEntry)
    (s : ExtractState),
    alookup (es.foldl extractStep s).count_by_filename d
      = if (es.filter (fun e => e.dest = d)).length = 0
        then alookup s.count_by_filename d
        else some ((alookup s.count_by_filename d).getD 0
          + (es.filter (fun e => e.dest = d)).length) := by
  intro es
  induction es with
  | nil => intro s; simp
  | cons e rest ih =>
      intro s
      show alookup (rest.foldl extractStep (extractStep s e)).count_by_filename d
        = _
      by_cases hd : e.dest = d
      · have hfilter : (e :: rest).filter (fun x => x.dest = d)
            = e :: rest.filter (fun x => x.dest = d) := by
          simp [List.filter_cons, hd]
        have hstep : alookup (extractStep s e).count_by_filename d
            = some ((alookup s.count_by_filename d).getD 0 + 1) := by
          unfold extractStep
          rw [hd]
          cases alookup s.extracted_by_name d
          · exact alookup_ainsert_self _ _ _
          · dsimp only
            split_ifs <;> exact alookup_ainsert_self _ _ _
        rw [ih (extractStep s e), hstep, hfilter]
        by_cases hn : (rest.filter (fun x => x.dest = d)).length = 0
        · simp [hn]
        · simp only [if_neg hn, List.length_cons,
            if_neg (by omega : ¬ (rest.filter (fun x => x.dest = d)).length + 1 = 0),
            Option.getD_some]
          congr 1
          omega
      · have hfilter : (e :: rest).filter (fun x => x.dest = d)
            = rest.filter (fun x => x.dest = d) := by
          simp [List.filter_cons, hd]
        rw [hfilter, ih (extractStep s e), (extractStep_other_dest s e d hd).2.1]

/-! ### C8: latest-timestamp entry wins, duplicates only warn -/

/-- C8. Among the matching archive entries producing the same
destination filename, the surviving extracted entry `w` has a
modification time at least as late as every colliding entry, every
entry extracted *before* `w` is strictly earlier (so `w` is the first
entry attaining the latest time: ties keep the first-extracted entry),
the on-disk content is `w`'s, the number of colliding versions is
counted exactly, and a collision count above one only sets the warning
flag: extraction still succeeds. -/
theorem duplicate_latest_wins (entries : List ZipEntry) (d : String)
    (hm : entries.filter (fun e => e.dest = d) ≠ []) :
    ∃ w, alookup (extractAll entries).extracted_by_name d = some w
      ∧ alookup (extractAll entries).files d = some w.content
      ∧ (∀ m ∈ entries.filter (fun e => e.dest = d),
          pyTupleLe m.date_time w.date_time = true)
      ∧ (∃ pre post, entries.filter (fun e => e.dest = d) = pre ++ w :: post
          ∧ (∀ m ∈ pre, pyTupleLt m.date_time w.date_time = true)
          ∧ (∀ m ∈ post, pyTupleLe m.date_time w.date_time = true))
      ∧ alookup (extractAll entries).count_by_filename d
          = some (entries.filter (fun e => e.dest = d)).length
      ∧ (extraction_warned (extractAll entries) d = true
          ↔ 1 < (entries.filter (fun e => e.dest = d)).length)
      ∧ extraction_success (extractAll entries) = true := by
  have hext : alookup (extractAll entries).extracted_by_name d
      = champion (entries.filter (fun e => e.dest = d)) := by
    have h := extract_fold_extracted d entries ⟨[], [], []⟩
    simpa [extractAll, championFrom, alookup] using h
  obtain ⟨m0, ms', hms⟩ : ∃ m0 ms',
      entries.filter (fun e => e.dest = d) = m0 :: ms' := by
    cases hC : entries.filter (fun e => e.dest = d) with
    | nil => exact absurd hC hm
    | cons m0 ms' => exact ⟨m0, ms', rfl⟩
  have hchamp : champion (entries.filter (fun e => e.dest = d))
      = some (championAux m0 ms') := by
    rw [hms]; rfl
  refine ⟨championAux m0 ms', by rw [hext, hchamp], ?_, ?_, ?_, ?_, ?_, ?_⟩
  · have hfiles := extract_fold_files d entries ⟨[], [], []⟩ (by rfl)
    show alookup (extractAll entries).files d = _
    rw [show (extractAll entries) = entries.foldl extractStep ⟨[], [], []⟩ from rfl]
    rw [hfiles]
    rw [show entries.foldl extractStep (⟨[], [], []⟩ : ExtractState)
      = extractAll entries from rfl]
    rw [hext, hchamp]
    rfl
  · exact (champion_spec _ _ hchamp).2
  · exact (champion_spec _ _ hchamp).1
  · have hcounts := extract_fold_counts d entries ⟨[], [], []⟩
    show alookup (extractAll entries).count_by_filename d = _
    rw [show (extractAll entries) = entries.foldl extractStep ⟨[], [], []⟩ from rfl]
    rw [hcounts]
    rw [if_neg (by rw [hms]; simp)]
    simp [alookup]
  · have hcounts := extract_fold_counts d entries ⟨[], [], []⟩
    unfold extraction_warned
    rw [show (extractAll entries) = entries.foldl extractStep ⟨[], [], []⟩ from rfl]
    rw [hcounts]
    rw [if_neg (by rw [hms]; simp)]
    simp [alookup]
  · unfold extraction_success
    cases hE : (extractAll entries).extracted_by_name with
    | nil =>
        rw [hE] at hext
        rw [hchamp] at hext
        exact absurd hext.symm (by simp [alookup])
    | cons p rest => simp

/-- C8 witness: two entries for `main.c`, the second one day later: its
content `v2` is extracted, both versions are counted, the duplicate
warning fires, and extraction succeeds. -/
theorem duplicate_latest_wins_witness :
    ∃ w, alookup (extractAll [exEntry1, exEntry2]).extracted_by_name "main.c"
          = some w
      ∧ alookup (extractAll [exEntry1, exEntry2]).files "main.c"
          = some w.content
      ∧ alookup (extractAll [exEntry1, exEntry2]).count_by_filename "main.c"
          = some 2
      ∧ extraction_warned (extractAll [exEntry1, exEntry2]) "main.c" = true
      ∧ extraction_success (extractAll [exEntry1, exEntry2]) = true := by
  obtain ⟨w, h1, h2, _h3, _h4, h5, h6, h7⟩ :=
    duplicate_latest_wins [exEntry1, exEntry2] "main.c" (by decide)
  refine ⟨w, h1, h2, ?_, ?_, h7⟩
  · rw [h5]
    rfl
  · exact h6.mpr (by decide)

/-! ### Lemmas for lateness (C9) -/

theorem effective_due_cons (due : Nat) (exc : List (String × Nat))
    (m : String) (rest : GroupKey) :
    effective_due due exc (m :: rest)
      = effective_due
          (match alookup exc m with
            | some e => max due e
            | none => due) exc rest := rfl

theorem effective_due_spec (exc : List (String × Nat)) :
    ∀ (key : GroupKey) (due : Nat),
      due ≤ effective_due due exc key
        ∧ (∀ m ∈ key, ∀ e, alookup exc m = some e → e ≤ effective_due due exc key)
        ∧ (effective_due due exc key = due
            ∨ ∃ m ∈ key, alookup exc m = some (effective_due due exc key)) := by
  intro key
  induction key with
  | nil => intro due; exact ⟨le_refl _, by simp, Or.inl rfl⟩
  | cons m rest ih =>
      intro due
      cases hm : alookup exc m with
      | none =>
          rw [effective_due_cons, hm]
          obtain ⟨h1, h2, h3⟩ := ih due
          refine ⟨h1, fun x hx e he => ?_, ?_⟩
          · rcases List.mem_cons.mp hx with heq | htail
            · subst heq; rw [hm] at he; cases he
            · exact h2 x htail e he
          · rcases h3 with h | ⟨x, hx, he⟩
            · exact Or.inl h
            · exact Or.inr ⟨x, List.mem_cons_of_mem _ hx, he⟩
      | some e0 =>
          rw [effective_due_cons, hm]
          dsimp only
          obtain ⟨h1, h2, h3⟩ := ih (max due e0)
          refine ⟨le_trans (le_max_left _ _) h1, fun x hx e he => ?_, ?_⟩
          · rcases List.mem_cons.mp hx with heq | htail
            · subst heq
              rw [hm] at he
              rw [Option.some.injEq] at he
              subst he
              exact le_trans (le_max_right _ _) h1
            · exact h2 x htail e he
          · rcases h3 with h | ⟨x, hx, he⟩
            · rcases max_choice due e0 with hd | he0
              · exact Or.inl (h.trans hd)
              · exact Or.inr ⟨m, List.mem_cons_self m rest,
                  by rw [hm, h, he0]⟩
            · exact Or.inr ⟨x, List.mem_cons_of_mem _ hx, he⟩

theorem submit_scan_step_found (parse : String → Option Nat) (netId : String)
    (d : Nat) (exc : List (String × Nat)) (acc : SubmitScan)
    (ded : StudentDeductions)
    (h1 : acc.foundKey = none → acc.effectiveDue = some d)
    (h2 : ∀ k, acc.foundKey = some k →
      acc.effectiveDue = some (effective_due d exc k)) :
    ((submit_scan_step parse netId (some d) exc acc ded).foundKey = none →
      (submit_scan_step parse netId (some d) exc acc ded).effectiveDue = some d)
    ∧ ∀ k, (submit_scan_step parse netId (some d) exc acc ded).foundKey = some k →
        (submit_scan_step parse netId (some d) exc acc ded).effectiveDue
          = some (effective_due d exc k) := by
  unfold submit_scan_step
  cases hf : find_student_key ded netId with
  | none => exact ⟨h1, h2⟩
  | some key =>
      dsimp only
      refine ⟨fun hc => ?_, fun k hk => ?_⟩
      · cases hc
      · rw [Option.some.injEq] at hk
        subst hk
        rfl

theorem submit_scan_found_eff (parse : String → Option Nat) (netId : String)
    (d : Nat) (exc : List (String × Nat)) :
    ∀ (items : List StudentDeductions) (acc : SubmitScan),
      (acc.foundKey = none → acc.effectiveDue = some d) →
      (∀ k, acc.foundKey = some k →
        acc.effectiveDue = some (effective_due d exc k)) →
      ((items.foldl (submit_scan_step parse netId (some d) exc) acc).foundKey
          = none →
        (items.foldl (submit_scan_step parse netId (some d) exc) acc).effectiveDue
          = some d)
      ∧ ∀ k, (items.foldl (submit_scan_step parse netId (some d) exc)
            acc).foundKey = some k →
          (items.foldl (submit_scan_step parse netId (some d) exc)
            acc).effectiveDue = some (effective_due d exc k) := by
  intro items
  induction items with
  | nil => intro acc h1 h2; exact ⟨h1, h2⟩
  | cons ded rest ih =>
      intro acc h1 h2
      have hstep := submit_scan_step_found parse netId d exc acc ded h1 h2
      exact ih _ hstep.1 hstep.2

/-! ### C9: lateness against the effective due date -/

/-- C9. With a configured due date `d`: when no group is found the
effective due date stays `d`; when a group `k` is found, the effective
due date equals `d` raised to the most generous exception among `k`'s
members (it is at least `d`, at least every member's exception, and is
either `d` itself or some member's exception); and the reported
submitted datetime is `None` exactly when the scanned submit time is
absent or no later than the effective due date, and otherwise equals
the scanned (latest) submit time. -/
theorem lateness_effective_due_spec (parse : String → Option Nat)
    (items : List StudentDeductions) (netId : String) (d : Nat)
    (exc : List (String × Nat)) :
    ((submit_scan parse items netId (some d) exc).foundKey = none →
        (submit_scan parse items netId (some d) exc).effectiveDue = some d)
      ∧ (∀ k, (submit_scan parse items netId (some d) exc).foundKey = some k →
          (submit_scan parse items netId (some d) exc).effectiveDue
              = some (effective_due d exc k)
            ∧ d ≤ effective_due d exc k
            ∧ (∀ m ∈ k, ∀ e, alookup exc m = some e →
                e ≤ effective_due d exc k)
            ∧ (effective_due d exc k = d
                ∨ ∃ m ∈ k, alookup exc m = some (effective_due d exc k)))
      ∧ (get_student_key_and_submit_info parse items netId (some d) exc).2.1
          = (submit_scan parse items netId (some d) exc).effectiveDue
      ∧ (∀ e, (submit_scan parse items netId (some d) exc).effectiveDue = some e →
          ((get_student_key_and_submit_info parse items netId (some d) exc).2.2
              = none ↔
            ((submit_scan parse items netId (some d) exc).latest = none
              ∨ ∃ l, (submit_scan parse items netId (some d) exc).latest = some l
                  ∧ l ≤ e)))
      ∧ ((get_student_key_and_submit_info parse items netId (some d) exc).2.2
            ≠ none →
          (get_student_key_and_submit_info parse items netId (some d) exc).2.2
            = (submit_scan parse items netId (some d) exc).latest) := by
  have hscan := submit_scan_found_eff parse netId d exc items
    ⟨none, some d, none⟩ (fun _ => rfl) (fun k hk => by cases hk)
  refine ⟨hscan.1, fun k hk => ?_, rfl, fun e he => ?_, fun hne => ?_⟩
  · obtain ⟨h1, h2, h3⟩ := effective_due_spec exc k d
    exact ⟨hscan.2 k hk, h1, h2, h3⟩
  · show (match (submit_scan parse items netId (some d) exc).latest,
        (submit_scan parse items netId (some d) exc).effectiveDue with
      | some l, some e => if l ≤ e then none else some l
      | _, _ => (submit_scan parse items netId (some d) exc).latest) = none ↔ _
    rw [he]
    cases hl : (submit_scan parse items netId (some d) exc).latest with
    | none => simp
    | some l =>
        dsimp only
        constructor
        · intro hrep
          by_cases hle : l ≤ e
          · exact Or.inr ⟨l, rfl, hle⟩
          · rw [if_neg hle] at hrep
            cases hrep
        · rintro (hc | ⟨l', hl', hle⟩)
          · cases hc
          · rw [Option.some.injEq] at hl'
            subst hl'
            rw [if_pos hle]
  · show (match (submit_scan parse items netId (some d) exc).latest,
        (submit_scan parse items netId (some d) exc).effectiveDue with
      | some l, some e => if l ≤ e then none else some l
      | _, _ => (submit_scan parse items netId (some d) exc).latest)
      = (submit_scan parse items netId (some d) exc).latest
    have hne' : (match (submit_scan parse items netId (some d) exc).latest,
        (submit_scan parse items netId (some d) exc).effectiveDue with
      | some l, some e => if l ≤ e then none else some l
      | _, _ => (submit_scan parse items netId (some d) exc).latest) ≠ none := hne
    cases hl : (submit_scan parse items netId (some d) exc).latest with
    | none => cases he : (submit_scan parse items netId (some d) exc).effectiveDue <;> rfl
    | some l =>
        cases he : (submit_scan parse items netId (some d) exc).effectiveDue with
        | none => rfl
        | some e =>
            dsimp only
            by_cases hle : l ≤ e
            · rw [hl, he] at hne'
              dsimp only at hne'
              rw [if_pos hle] at hne'
              exact absurd rfl hne'
            · rw [if_neg hle]

/-- C9 witness: due date 10, a group graded with submit time mapping to
8 and no exceptions: the effective due date is 10 and the reported
submitted datetime is `None` (on time). -/
theorem lateness_effective_due_spec_witness :
    (get_student_key_and_submit_info exParse [exStoreSubmit] "abc123"
        (some 10) []).2.2 = none
      ∧ (submit_scan exParse [exStoreSubmit] "abc123" (some 10) []).effectiveDue
        = some 10 := by
  have h := lateness_effective_due_spec exParse [exStoreSubmit] "abc123" 10 []
  refine ⟨?_, rfl⟩
  exact (h.2.2.2.1 10 rfl).mpr (Or.inr ⟨8, rfl, by norm_num⟩)

end YGrader
